import Mathlib

/-!
Verification development for the incremental parsing and semantic-inspection
core of a Power Query language-service library.  The definitions below are a
shallow embedding of the TypeScript source: TS string-valued const enums are
modelled as Lean `String` constants, JS `Map`s as insertion-ordered
association lists with last-write-wins lookup, and thrown exceptions as
`Except` error values.
-/

set_option autoImplicit false

namespace PQ

/-! JS primitives: insertion-ordered maps and string slicing. -/

/-- JS `Map.get`: the value of the last `set` for the key (later entries win). -/
def jsMapGet {β : Type} (entries : List (String × β)) (key : String) : Option β :=
  (entries.reverse.find? (fun p => p.1 == key)).map (fun p => p.2)

/-- JS `Map.set`: update in place when the key exists, append otherwise. -/
def jsMapSet {β : Type} (entries : List (String × β)) (key : String) (v : β) :
    List (String × β) :=
  if (jsMapGet entries key).isSome then
    entries.map (fun p => if p.1 == key then (p.1, v) else p)
  else
    entries ++ [(key, v)]

/-- JS `Map.keys()`: first-insertion order with duplicates removed. -/
def jsMapKeys {β : Type} (entries : List (String × β)) : List String :=
  entries.foldl (fun acc p => if acc.contains p.1 then acc else acc ++ [p.1]) []

def lastIndexOfCommaAux : List Char → Nat → Option Nat
  | [], _ => none
  | c :: rest, i =>
    match lastIndexOfCommaAux rest (i + 1) with
    | some j => some j
    | none => if c = ',' then some i else none

/-- JS `string.lastIndexOf(",")`: the last comma position, or -1 when absent. -/
def jsLastIndexOfComma (s : String) : Int :=
  match lastIndexOfCommaAux s.data 0 with
  | some i => (i : Int)
  | none => -1

/-- JS `string.slice` index clamping: negative indices count from the end. -/
def jsSliceClamp (len : Nat) (i : Int) : Nat :=
  if i < 0 then (max ((len : Int) + i) 0).toNat else min i.toNat len

/-- JS `string.slice(b, e)`. -/
def jsSlice (s : String) (b e : Int) : String :=
  let len := s.data.length
  let bn := jsSliceClamp len b
  let en := jsSliceClamp len e
  String.mk ((s.data.drop bn).take (en - bn))

/-- JS `string.slice(b)` (to the end of the string). -/
def jsSliceFrom (s : String) (b : Int) : String :=
  jsSlice s b (s.data.length : Int)

/-- JS `string.startsWith`, evaluated over the character lists. -/
def jsStartsWith (s searchString : String) : Bool :=
  searchString.data.isPrefixOf s.data

/-! Type kinds and binary operator kinds.  In the TS source these are
string-valued const enums from the language layer. -/

namespace TypeKind

/-- Modelled from the spec: the runtime string value of `Type.TypeKind.Any`.
The `Type`/`Constant` enum modules are missing from src; the spec's operator
tables (section 4.7) and result-kind names fix these spellings. -/
def any : String := "Any"

def anyNonNull : String := "AnyNonNull"

def binary : String := "Binary"

def date : String := "Date"

def dateTime : String := "DateTime"

def dateTimeZone : String := "DateTimeZone"

def duration : String := "Duration"

def function : String := "Function"

def list : String := "List"

def logical : String := "Logical"

def noneKind : String := "None"

def null : String := "Null"

def number : String := "Number"

def record : String := "Record"

def table : String := "Table"

def text : String := "Text"

def time : String := "Time"

def typeKind : String := "Type"

def action : String := "Action"

def unknown : String := "Unknown"

end TypeKind

/-- Modelled from the spec: the enumeration of `Type.TypeKind` values (missing
from src), as listed across the spec's operator tables and type taxonomy. -/
def kindStrings : List String :=
  [TypeKind.any, TypeKind.anyNonNull, TypeKind.binary, TypeKind.date,
   TypeKind.dateTime, TypeKind.dateTimeZone, TypeKind.duration,
   TypeKind.function, TypeKind.list, TypeKind.logical, TypeKind.noneKind,
   TypeKind.null, TypeKind.number, TypeKind.record, TypeKind.table,
   TypeKind.text, TypeKind.time, TypeKind.typeKind, TypeKind.action,
   TypeKind.unknown]

namespace RelationalOperatorKind

/-- Modelled from the spec: `Constant.RelationalOperatorKind` string values
(missing from src); spec section 4.7 lists the operators as >, >=, <, <=. -/
def greaterThan : String := ">"

def greaterThanEqualTo : String := ">="

def lessThan : String := "<"

def lessThanEqualTo : String := "<="

end RelationalOperatorKind

namespace EqualityOperatorKind

/-- Modelled from the spec: `Constant.EqualityOperatorKind` string values
(missing from src); spec section 4.7 lists the operators as = and <>. -/
def equalTo : String := "="

def notEqualTo : String := "<>"

end EqualityOperatorKind

namespace ArithmeticOperatorKind

/-- Modelled from the spec: `Constant.ArithmeticOperatorKind` string values
(missing from src); spec section 4.7 lists +, -, *, / and the combine
operator written `&` (named `And` in the TS enum). -/
def addition : String := "+"

def subtraction : String := "-"

def multiplication : String := "*"

def division : String := "/"

def and : String := "&"

end ArithmeticOperatorKind

namespace LogicalOperatorKind

/-- Modelled from the spec: `Constant.LogicalOperatorKind` string values
(missing from src); spec section 4.7 lists the keywords and, or. -/
def and : String := "and"

def or : String := "or"

end LogicalOperatorKind

/-! The binary-operation type lookup tables
(src/unnamed/part_000, inspectTypeTBinOpExpression module). -/

def lookupKey (leftTypeKind operatorKind rightTypeKind : String) : String :=
  leftTypeKind ++ "," ++ operatorKind ++ "," ++ rightTypeKind

def partialLookupKey (leftTypeKind operatorKind : String) : String :=
  leftTypeKind ++ "," ++ operatorKind

def createLookupsForRelational (typeKind : String) : List (String × String) :=
  [(lookupKey typeKind RelationalOperatorKind.greaterThan typeKind, TypeKind.logical),
   (lookupKey typeKind RelationalOperatorKind.greaterThanEqualTo typeKind, TypeKind.logical),
   (lookupKey typeKind RelationalOperatorKind.lessThan typeKind, TypeKind.logical),
   (lookupKey typeKind RelationalOperatorKind.lessThanEqualTo typeKind, TypeKind.logical)]

def createLookupsForEquality (typeKind : String) : List (String × String) :=
  [(lookupKey typeKind EqualityOperatorKind.equalTo typeKind, TypeKind.logical),
   (lookupKey typeKind EqualityOperatorKind.notEqualTo typeKind, TypeKind.logical)]

def createLookupsForArithmetic (typeKind : String) : List (String × String) :=
  [(lookupKey typeKind ArithmeticOperatorKind.addition typeKind, typeKind),
   (lookupKey typeKind ArithmeticOperatorKind.division typeKind, typeKind),
   (lookupKey typeKind ArithmeticOperatorKind.multiplication typeKind, typeKind),
   (lookupKey typeKind ArithmeticOperatorKind.subtraction typeKind, typeKind)]

def createLookupsForLogical (typeKind : String) : List (String × String) :=
  [(lookupKey typeKind LogicalOperatorKind.and typeKind, typeKind),
   (lookupKey typeKind LogicalOperatorKind.or typeKind, typeKind)]

def createLookupsForClockKind (typeKind : String) : List (String × String) :=
  [(lookupKey typeKind ArithmeticOperatorKind.addition TypeKind.duration, typeKind),
   (lookupKey TypeKind.duration ArithmeticOperatorKind.addition typeKind, typeKind),
   (lookupKey typeKind ArithmeticOperatorKind.subtraction TypeKind.duration, typeKind),
   (lookupKey typeKind ArithmeticOperatorKind.subtraction typeKind, TypeKind.duration)]

/-- The full binary-operation result-kind table, entry for entry in the order
of the source array literal (duplicated Date-&-Time entry included). -/
def Lookup : List (String × String) :=
  createLookupsForRelational TypeKind.null ++
  createLookupsForEquality TypeKind.null ++
  createLookupsForRelational TypeKind.logical ++
  createLookupsForEquality TypeKind.logical ++
  createLookupsForLogical TypeKind.logical ++
  createLookupsForRelational TypeKind.number ++
  createLookupsForEquality TypeKind.number ++
  createLookupsForArithmetic TypeKind.number ++
  createLookupsForRelational TypeKind.time ++
  createLookupsForEquality TypeKind.time ++
  createLookupsForClockKind TypeKind.time ++
  [(lookupKey TypeKind.date ArithmeticOperatorKind.and TypeKind.time, TypeKind.dateTime)] ++
  createLookupsForRelational TypeKind.date ++
  createLookupsForEquality TypeKind.date ++
  createLookupsForClockKind TypeKind.date ++
  [(lookupKey TypeKind.date ArithmeticOperatorKind.and TypeKind.time, TypeKind.dateTime)] ++
  createLookupsForRelational TypeKind.dateTime ++
  createLookupsForEquality TypeKind.dateTime ++
  createLookupsForClockKind TypeKind.dateTime ++
  createLookupsForRelational TypeKind.dateTimeZone ++
  createLookupsForEquality TypeKind.dateTimeZone ++
  createLookupsForClockKind TypeKind.dateTimeZone ++
  createLookupsForRelational TypeKind.duration ++
  createLookupsForEquality TypeKind.duration ++
  [(lookupKey TypeKind.duration ArithmeticOperatorKind.addition TypeKind.duration, TypeKind.duration),
   (lookupKey TypeKind.duration ArithmeticOperatorKind.subtraction TypeKind.duration, TypeKind.duration),
   (lookupKey TypeKind.duration ArithmeticOperatorKind.multiplication TypeKind.number, TypeKind.duration),
   (lookupKey TypeKind.number ArithmeticOperatorKind.multiplication TypeKind.duration, TypeKind.duration),
   (lookupKey TypeKind.duration ArithmeticOperatorKind.division TypeKind.number, TypeKind.duration)] ++
  createLookupsForRelational TypeKind.text ++
  createLookupsForEquality TypeKind.text ++
  [(lookupKey TypeKind.text ArithmeticOperatorKind.and TypeKind.text, TypeKind.text)] ++
  createLookupsForRelational TypeKind.binary ++
  createLookupsForEquality TypeKind.binary ++
  createLookupsForEquality TypeKind.list ++
  [(lookupKey TypeKind.list ArithmeticOperatorKind.and TypeKind.list, TypeKind.list)] ++
  createLookupsForEquality TypeKind.record ++
  [(lookupKey TypeKind.record ArithmeticOperatorKind.and TypeKind.record, TypeKind.record)] ++
  createLookupsForEquality TypeKind.table ++
  [(lookupKey TypeKind.table ArithmeticOperatorKind.and TypeKind.table, TypeKind.table)]

/-- One step of the source's reduce building the partial index: split the key
at its last comma, then add the final component to the set stored under the
two-component partial key (sets keep only first occurrences). -/
def partialLookupInsert (acc : List (String × List String)) (key : String) :
    List (String × List String) :=
  let lastDeliminatorIndex := jsLastIndexOfComma key
  let partialKey := jsSlice key 0 lastDeliminatorIndex
  let potentialNewValue := jsSliceFrom key (lastDeliminatorIndex + 1)
  match jsMapGet acc partialKey with
  | none => acc ++ [(partialKey, [potentialNewValue])]
  | some values =>
      jsMapSet acc partialKey
        (if values.contains potentialNewValue then values else values ++ [potentialNewValue])

/-- The partial index: keys of `Lookup` reduced by `partialLookupInsert`. -/
def PartialLookup : List (String × List String) :=
  (jsMapKeys Lookup).foldl partialLookupInsert []

/-! The TType value model.  TS type values are plain objects whose optional
payload fields depend on `maybeExtendedKind`; a single constructor with all
payload fields mirrors that. -/

inductive TType : Type where
  | mk (kind : String) (maybeExtendedKind : Option String) (isNullable : Bool)
       (fields : List (String × TType)) (isOpen : Bool)
       (unionedTypePairs : List TType)

def TType.kind : TType → String
  | .mk k _ _ _ _ _ => k

def TType.maybeExtendedKind : TType → Option String
  | .mk _ e _ _ _ _ => e

def TType.isNullable : TType → Bool
  | .mk _ _ n _ _ _ => n

def TType.fields : TType → List (String × TType)
  | .mk _ _ _ f _ _ => f

def TType.isOpen : TType → Bool
  | .mk _ _ _ _ o _ => o

def TType.unionedTypePairs : TType → List TType
  | .mk _ _ _ _ _ u => u

/-- Modelled from the spec: `TypeUtils.primitiveTypeFactory` (missing from
src) builds the primitive type value of the given nullability and kind. -/
def primitiveTypeFactory (isNullable : Bool) (typeKind : String) : TType :=
  TType.mk typeKind none isNullable [] false []

/-- Modelled from the spec: `TypeUtils.anyUnionFactory` (missing from src)
builds an `Any` value extended to `AnyUnion` over the given member types,
nullable when some member is. -/
def anyUnionFactory (unionedTypePairs : List TType) : TType :=
  TType.mk TypeKind.any (some "AnyUnion") (unionedTypePairs.any TType.isNullable)
    [] false unionedTypePairs

/-- `Type.UnknownInstance`. -/
def UnknownInstance : TType := primitiveTypeFactory false TypeKind.unknown

/-- `Type.NoneInstance`. -/
def NoneInstance : TType := primitiveTypeFactory false TypeKind.noneKind

/-! The dual-mode node view consumed by the inspectors. -/

structure Position where
  lineNumber : Nat
  lineCodeUnit : Nat
deriving DecidableEq, Repr

structure AstNode where
  id : Nat := 0
  kind : String := ""
  maybeAttributeIndex : Option Nat := none
  maybeConstantKind : Option String := none
  literal : String := ""
  literalKind : Option String := none
  positionStart : Position := ⟨0, 0⟩
  positionEnd : Position := ⟨0, 0⟩
deriving DecidableEq, Repr

structure ContextNode where
  id : Nat := 0
  kind : String := ""
  tokenIndexStart : Nat := 0
  attributeCounter : Nat := 0
  maybeAttributeIndex : Option Nat := none
deriving DecidableEq, Repr

inductive XorNode : Type where
  | ast (node : AstNode)
  | context (node : ContextNode)
deriving DecidableEq, Repr

/-- The uniform `xorNode.node.kind` read. -/
def XorNode.nodeKind : XorNode → String
  | .ast a => a.kind
  | .context c => c.kind

def XorNode.nodeId : XorNode → Nat
  | .ast a => a.id
  | .context c => c.id

/-! inspectTypeTBinOpExpression (src/unnamed/part_000 lines 11-139). -/

/-- The `maybeOperatorKind` read: a context child or a missing child yields
no operator; an Ast child is read as an IConstant (absent `constantKind`
on a non-constant node surfaces as `none`). -/
def binOpMaybeOperatorKind : Option XorNode → Option String
  | none => none
  | some (XorNode.context _) => none
  | some (XorNode.ast node) => node.maybeConstantKind

/-- The right-operand-missing branch of `inspectTypeTBinOpExpression`:
partial lookup on the left kind and operator. -/
def binOpPartialBranch (leftType : TType) (operatorKind : String) : TType :=
  match jsMapGet PartialLookup (partialLookupKey leftType.kind operatorKind) with
  | none => NoneInstance
  | some allowed =>
    match allowed with
    | [k] => primitiveTypeFactory leftType.isNullable k
    | ks => anyUnionFactory (ks.map (fun kind => TType.mk kind none true [] false []))

/-- `unionFields`: right-biased merge of the two field maps. -/
def unionFields (leftType rightType : TType) : TType :=
  let combinedFields :=
    rightType.fields.foldl (fun acc kv => jsMapSet acc kv.1 kv.2) leftType.fields
  TType.mk leftType.kind leftType.maybeExtendedKind
    (leftType.isNullable && rightType.isNullable) combinedFields
    (leftType.isOpen || rightType.isOpen) leftType.unionedTypePairs

/-- `inspectRecordOrTableUnion`, branch for branch; thrown InvariantErrors
become `Except.error`. -/
def inspectRecordOrTableUnion (leftType rightType : TType) : Except String TType :=
  if leftType.kind ≠ rightType.kind then
    .error "leftType.kind is not rightType.kind"
  else if leftType.maybeExtendedKind = none ∧ rightType.maybeExtendedKind = none then
    .ok (primitiveTypeFactory (leftType.isNullable || rightType.isNullable) leftType.kind)
  else if (leftType.maybeExtendedKind ≠ none ∧ rightType.maybeExtendedKind = none)
      ∨ (leftType.maybeExtendedKind = none ∧ rightType.maybeExtendedKind ≠ none) then
    let extendedType := if leftType.maybeExtendedKind ≠ none then leftType else rightType
    .ok (TType.mk extendedType.kind extendedType.maybeExtendedKind extendedType.isNullable
          extendedType.fields true extendedType.unionedTypePairs)
  else if leftType.maybeExtendedKind = rightType.maybeExtendedKind then
    .ok (unionFields leftType rightType)
  else
    .error "shouldNeverBeReached"

/-- The both-operands-present branch: full lookup, then either the
record/table combine or the primitive with or-ed nullability. -/
def binOpFullBranch (leftType rightType : TType) (operatorKind : String) :
    Except String TType :=
  match jsMapGet Lookup (lookupKey leftType.kind operatorKind rightType.kind) with
  | none => .ok NoneInstance
  | some resultTypeKind =>
    if operatorKind = ArithmeticOperatorKind.and
        ∧ (resultTypeKind = TypeKind.record ∨ resultTypeKind = TypeKind.table) then
      inspectRecordOrTableUnion leftType rightType
    else
      .ok (primitiveTypeFactory (leftType.isNullable || rightType.isNullable) resultTypeKind)

/-- `inspectTypeTBinOpExpression`.  `inspectXor` is the recursive inspection
of child nodes (the module `./common`, outside this file's sources) and
`children` stands for `assertIterChildrenXor(nodeIdMapCollection, id)`. -/
def inspectTypeTBinOpExpression (inspectXor : XorNode → TType)
    (children : List XorNode) : Except String TType :=
  match children.get? 0 with
  | none => .ok UnknownInstance
  | some left =>
    match binOpMaybeOperatorKind (children.get? 1) with
    | none => .ok (inspectXor left)
    | some operatorKind =>
      match children.get? 2 with
      | none => .ok (binOpPartialBranch (inspectXor left) operatorKind)
      | some (XorNode.context _) => .ok (binOpPartialBranch (inspectXor left) operatorKind)
      | some (XorNode.ast rightAst) =>
          binOpFullBranch (inspectXor left) (inspectXor (XorNode.ast rightAst)) operatorKind

/-! Helpers for stating the Lookup/PartialLookup correspondence. -/

/-- Whether the partial index maps `partialKey` to a set containing
`rightKindValue`. -/
def partialLookupHas (partialKey rightKindValue : String) : Bool :=
  match jsMapGet PartialLookup partialKey with
  | some values => values.contains rightKindValue
  | none => false

/-- The two-component part of a full key, split exactly as the source does
(slice up to the last comma). -/
def splitKeyLeft (key : String) : String := jsSlice key 0 (jsLastIndexOfComma key)

/-- The final component of a full key (slice after the last comma). -/
def splitKeyRight (key : String) : String := jsSliceFrom key (jsLastIndexOfComma key + 1)

/-! Ast node kind names used by the inspectors.  TS `Ast.NodeKind` is a
string-valued enum whose values spell the kind names. -/

namespace NodeKind

/-- Modelled from the spec: the `Ast.NodeKind` enum (missing from src) is
string-valued; each value spells its kind name as used throughout the spec's
component design sections. -/
def literalExpression : String := "LiteralExpression"

def constant : String := "Constant"

def identifier : String := "Identifier"

def identifierExpression : String := "IdentifierExpression"

def parameter : String := "Parameter"

def parameterList : String := "ParameterList"

def functionExpression : String := "FunctionExpression"

def identifierPairedExpression : String := "IdentifierPairedExpression"

def letExpression : String := "LetExpression"

def arithmeticExpression : String := "ArithmeticExpression"

def typePrimaryType : String := "TypePrimaryType"

def nullablePrimitiveType : String := "NullablePrimitiveType"

def primitiveType : String := "PrimitiveType"

end NodeKind

/-- Modelled from the spec: the fragment of `inspectXor` (module
inspection/type common, missing from src) for finished literal-expression
leaves: a literal has the primitive type of its literal kind and is not
nullable (spec section 8, scenario S7, and section 4.7 step 2). -/
def inspectXorLiteral (x : XorNode) : TType :=
  match x with
  | XorNode.ast a =>
    if a.kind = NodeKind.literalExpression then
      if a.literalKind = some "Numeric" then primitiveTypeFactory false TypeKind.number
      else if a.literalKind = some "Text" then primitiveTypeFactory false TypeKind.text
      else if a.literalKind = some "Logical" then primitiveTypeFactory false TypeKind.logical
      else if a.literalKind = some "Null" then primitiveTypeFactory true TypeKind.null
      else UnknownInstance
    else UnknownInstance
  | XorNode.context _ => UnknownInstance

/-- The finished literal `1`. -/
def numberLiteralNode : AstNode :=
  { id := 4, kind := NodeKind.literalExpression, maybeAttributeIndex := some 0,
    literal := "1", literalKind := some "Numeric" }

/-- The finished operator constant `+`. -/
def plusConstantNode : AstNode :=
  { id := 6, kind := NodeKind.constant, maybeAttributeIndex := some 1,
    maybeConstantKind := some ArithmeticOperatorKind.addition }

/-- The finished operator constant `*`. -/
def starConstantNode : AstNode :=
  { id := 6, kind := NodeKind.constant, maybeAttributeIndex := some 1,
    maybeConstantKind := some ArithmeticOperatorKind.multiplication }

/-- The children of the TBinOpExpression context left behind by the partial
parse of the input `1 +`: the literal and the operator constant are finished,
the right operand was never produced. -/
def c4Children : List XorNode :=
  [XorNode.ast numberLiteralNode, XorNode.ast plusConstantNode]

/-- Observation of the nullability of an inspection result. -/
def exceptIsNullable : Except String TType → Option Bool
  | Except.ok t => some t.isNullable
  | Except.error _ => none

/-! Lemmas about the JS map model, used for the record/table combine claim. -/

def jsOrElse {β : Type} : Option β → Option β → Option β
  | some v, _ => some v
  | none, b => b

@[simp] theorem jsOrElse_some {β : Type} (v : β) (b : Option β) :
    jsOrElse (some v) b = some v := rfl

@[simp] theorem jsOrElse_none {β : Type} (b : Option β) :
    jsOrElse none b = b := rfl

theorem jsMapGet_nil {β : Type} (key : String) :
    jsMapGet ([] : List (String × β)) key = none := rfl

theorem jsMapGet_cons {β : Type} (p : String × β) (l : List (String × β)) (key : String) :
    jsMapGet (p :: l) key
      = jsOrElse (jsMapGet l key) (if p.1 = key then some p.2 else none) := by
  simp only [jsMapGet, List.reverse_cons, List.find?_append]
  cases h : l.reverse.find? (fun q => q.1 == key) with
  | some q => simp [h]
  | none =>
      simp only [h, Option.none_orElse, jsOrElse_none, Option.map_none']
      by_cases hp : p.1 = key
      · simp [List.find?, hp]
      · simp [List.find?, beq_false_of_ne hp, hp]

theorem jsMapGet_map_replace {β : Type} (l : List (String × β)) (k key : String) (v : β) :
    jsMapGet (l.map (fun p => if p.1 == k then (p.1, v) else p)) key
      = if key = k then (jsMapGet l k).map (fun _ => v) else jsMapGet l key := by
  induction l with
  | nil => by_cases h : key = k <;> simp [jsMapGet, h]
  | cons p l ih =>
      have hsplit : (fun (p : String × β) => if p.1 == k then (p.1, v) else p)
          = fun p => if p.1 = k then (p.1, v) else p := by
        funext q; by_cases h : q.1 = k <;> simp [h]
      rw [hsplit] at ih ⊢
      simp only [List.map_cons, jsMapGet_cons, ih]
      by_cases hkey : key = k <;> by_cases hpk : p.1 = k
      · have hpkey : p.1 = key := hpk.trans hkey.symm
        simp only [if_pos hkey, if_pos hpk, if_pos hpkey]
        cases hgl : jsMapGet l k <;> simp
      · have hpkey : ¬ p.1 = key := fun h => hpk (h.trans hkey)
        simp only [if_pos hkey, if_neg hpk, if_neg hpkey]
        cases hgl : jsMapGet l k <;> simp
      · have hpkey : ¬ p.1 = key := fun h => hkey (h.symm.trans hpk)
        simp only [if_neg hkey, if_pos hpk, if_neg hpkey]
      · simp only [if_neg hkey, if_neg hpk]

theorem jsMapGet_append_single {β : Type} (l : List (String × β)) (k key : String) (v : β) :
    jsMapGet (l ++ [(k, v)]) key = if key = k then some v else jsMapGet l key := by
  simp only [jsMapGet, List.reverse_append, List.reverse_cons, List.reverse_nil,
    List.nil_append, List.find?_cons]
  by_cases h : key = k
  · subst h; simp [beq_iff_eq]
  · have hb : (k == key) = false := beq_false_of_ne (fun he => h he.symm)
    simp [hb, h]

theorem jsMapGet_jsMapSet {β : Type} (l : List (String × β)) (k key : String) (v : β) :
    jsMapGet (jsMapSet l k v) key = if key = k then some v else jsMapGet l key := by
  cases hs : jsMapGet l k with
  | some w =>
      have hsome : (jsMapGet l k).isSome = true := by rw [hs]; rfl
      rw [jsMapSet, if_pos hsome, jsMapGet_map_replace]
      by_cases hkey : key = k
      · subst hkey; rw [if_pos rfl, if_pos rfl, hs]; rfl
      · rw [if_neg hkey, if_neg hkey]
  | none =>
      have hnone : ¬ (jsMapGet l k).isSome = true := by rw [hs]; simp
      rw [jsMapSet, if_neg hnone, jsMapGet_append_single]

theorem jsMapGet_foldl_set {β : Type} (rs ls : List (String × β)) (key : String) :
    jsMapGet (rs.foldl (fun acc kv => jsMapSet acc kv.1 kv.2) ls) key
      = jsOrElse (jsMapGet rs key) (jsMapGet ls key) := by
  induction rs generalizing ls with
  | nil => simp [jsMapGet]
  | cons p rs ih =>
      rw [List.foldl_cons, ih, jsMapGet_jsMapSet, jsMapGet_cons]
      by_cases h : key = p.1
      · have h2 : p.1 = key := h.symm
        simp only [if_pos h, if_pos h2]
        cases hgr : jsMapGet rs key <;> simp
      · have h2 : ¬ p.1 = key := fun e => h e.symm
        simp only [if_neg h, if_neg h2]
        cases hgr : jsMapGet rs key <;> simp

set_option maxRecDepth 200000
set_option maxHeartbeats 4000000

/-- Checker for the finite fact that a full-table hit on the combine operator
with result kind Record or Table forces both operand kinds to equal the
result kind. -/
def ampForcesKind (a b : String) : Bool :=
  match jsMapGet Lookup (lookupKey a ArithmeticOperatorKind.and b) with
  | some k =>
      if k = TypeKind.record ∨ k = TypeKind.table then (a == k && b == k) else true
  | none => true

theorem amp_lookup_forces_kinds :
    ∀ a ∈ kindStrings, ∀ b ∈ kindStrings, ampForcesKind a b = true := by decide

/-- C6: for every key string leftKind,opKind,rightKind in the full operator
Lookup table, PartialLookup contains the two-component key and its value set
contains the final component; conversely every PartialLookup entry's value is
exactly the (duplicate-free) set of last components of the full-table keys
sharing that two-component prefix. -/
theorem claim_C6_partial_lookup_correspondence :
    (∀ key ∈ jsMapKeys Lookup,
        partialLookupHas (splitKeyLeft key) (splitKeyRight key) = true)
    ∧ (∀ entry ∈ PartialLookup,
        entry.2.Nodup
        ∧ (∀ rk ∈ entry.2, ∃ key ∈ jsMapKeys Lookup,
            splitKeyLeft key = entry.1 ∧ splitKeyRight key = rk)
        ∧ (∀ key ∈ jsMapKeys Lookup, splitKeyLeft key = entry.1 →
            splitKeyRight key ∈ entry.2)) := by decide

/-- Witness for C6 at the concrete full-table key for the record combine. -/
theorem claim_C6_partial_lookup_correspondence_witness :
    partialLookupHas (splitKeyLeft "Record,&,Record") (splitKeyRight "Record,&,Record")
      = true :=
  claim_C6_partial_lookup_correspondence.1 "Record,&,Record" (by decide)

/-- C3: on a TBinOpExpression whose left operand exists, whose operator
constant is finished, and whose right operand is absent or still a context,
a singleton partial-lookup set yields the primitive of that kind with the
left type's nullability, and a set of two or more kinds yields an AnyUnion
with one member per kind, each member nullable. -/
theorem claim_C3_binop_partial_inference
    (inspectXor : XorNode → TType) (children : List XorNode) (left : XorNode)
    (opAst : AstNode) (operatorKind : String) (allowed : List String)
    (hshape : children = [left, XorNode.ast opAst]
      ∨ ∃ c : ContextNode, children = [left, XorNode.ast opAst, XorNode.context c])
    (hop : opAst.maybeConstantKind = some operatorKind)
    (hlookup : jsMapGet PartialLookup
        (partialLookupKey (inspectXor left).kind operatorKind) = some allowed) :
    (∀ k, allowed = [k] →
      inspectTypeTBinOpExpression inspectXor children
        = Except.ok (primitiveTypeFactory (inspectXor left).isNullable k))
    ∧ (2 ≤ allowed.length →
      inspectTypeTBinOpExpression inspectXor children
        = Except.ok (anyUnionFactory
            (allowed.map (fun kind => TType.mk kind none true [] false [])))
      ∧ ∀ kind ∈ allowed,
          TType.mk kind none true [] false []
            ∈ (anyUnionFactory
                (allowed.map (fun kind => TType.mk kind none true [] false []))).unionedTypePairs) := by
  have hbranch : inspectTypeTBinOpExpression inspectXor children
      = Except.ok (binOpPartialBranch (inspectXor left) operatorKind) := by
    rcases hshape with h | ⟨c, h⟩ <;> subst h <;>
      simp only [inspectTypeTBinOpExpression, List.get?, binOpMaybeOperatorKind, hop]
  constructor
  · intro k hk
    subst hk
    rw [hbranch]
    unfold binOpPartialBranch
    rw [hlookup]
  · intro hlen
    match allowed, hlookup, hlen with
    | k1 :: k2 :: rest, hlookup, _ =>
      constructor
      · rw [hbranch]
        unfold binOpPartialBranch
        rw [hlookup]
      · intro kind hkind
        simp only [anyUnionFactory, TType.unionedTypePairs]
        exact List.mem_map_of_mem _ hkind

/-- Witness for C3: the concrete partial parses 1 + (singleton set, kind
Number, left not nullable) and 1 * (two admissible kinds). -/
theorem claim_C3_binop_partial_inference_witness :
    inspectTypeTBinOpExpression inspectXorLiteral c4Children
      = Except.ok (primitiveTypeFactory false TypeKind.number)
    ∧ inspectTypeTBinOpExpression inspectXorLiteral
        [XorNode.ast numberLiteralNode, XorNode.ast starConstantNode]
      = Except.ok (anyUnionFactory
          [TType.mk TypeKind.number none true [] false [],
           TType.mk TypeKind.duration none true [] false []]) := by
  constructor
  · have h := claim_C3_binop_partial_inference inspectXorLiteral c4Children
      (XorNode.ast numberLiteralNode) plusConstantNode
      ArithmeticOperatorKind.addition [TypeKind.number]
      (Or.inl rfl) rfl (by decide)
    exact h.1 TypeKind.number rfl
  · have h := claim_C3_binop_partial_inference inspectXorLiteral
      [XorNode.ast numberLiteralNode, XorNode.ast starConstantNode]
      (XorNode.ast numberLiteralNode) starConstantNode
      ArithmeticOperatorKind.multiplication [TypeKind.number, TypeKind.duration]
      (Or.inl rfl) rfl (by decide)
    exact (h.2 (by decide)).1

/-- C5: when inspectTypeTBinOpExpression combines two finished operands with
the combine operator and the full lookup yields Record or Table: unextended
operands give the primitive of that kind, nullable when either side is;
exactly one extended operand gives that operand's type with isOpen set true;
two operands with the same extended kind merge fields right-biased, with
and-ed nullability and or-ed openness. -/
theorem claim_C5_record_table_combine
    (inspectXor : XorNode → TType) (children : List XorNode)
    (leftNode opNode rightNode : AstNode) (lt rt : TType) (k : String)
    (hshape : children = [XorNode.ast leftNode, XorNode.ast opNode, XorNode.ast rightNode])
    (hop : opNode.maybeConstantKind = some ArithmeticOperatorKind.and)
    (hlt : inspectXor (XorNode.ast leftNode) = lt)
    (hrt : inspectXor (XorNode.ast rightNode) = rt)
    (hlk : lt.kind ∈ kindStrings) (hrk : rt.kind ∈ kindStrings)
    (hlookup : jsMapGet Lookup
        (lookupKey lt.kind ArithmeticOperatorKind.and rt.kind) = some k)
    (hk : k = TypeKind.record ∨ k = TypeKind.table) :
    (lt.maybeExtendedKind = none → rt.maybeExtendedKind = none →
      inspectTypeTBinOpExpression inspectXor children
        = Except.ok (primitiveTypeFactory (lt.isNullable || rt.isNullable) k))
    ∧ (lt.maybeExtendedKind ≠ none → rt.maybeExtendedKind = none →
      inspectTypeTBinOpExpression inspectXor children
        = Except.ok (TType.mk lt.kind lt.maybeExtendedKind lt.isNullable
            lt.fields true lt.unionedTypePairs))
    ∧ (lt.maybeExtendedKind = none → rt.maybeExtendedKind ≠ none →
      inspectTypeTBinOpExpression inspectXor children
        = Except.ok (TType.mk rt.kind rt.maybeExtendedKind rt.isNullable
            rt.fields true rt.unionedTypePairs))
    ∧ (∀ e, lt.maybeExtendedKind = some e → rt.maybeExtendedKind = some e →
      inspectTypeTBinOpExpression inspectXor children
        = Except.ok (unionFields lt rt)
      ∧ (∀ key, jsMapGet (unionFields lt rt).fields key
          = jsOrElse (jsMapGet rt.fields key) (jsMapGet lt.fields key))
      ∧ (unionFields lt rt).isNullable = (lt.isNullable && rt.isNullable)
      ∧ (unionFields lt rt).isOpen = (lt.isOpen || rt.isOpen)) := by
  have hbranch : inspectTypeTBinOpExpression inspectXor children
      = binOpFullBranch lt rt ArithmeticOperatorKind.and := by
    subst hshape
    simp only [inspectTypeTBinOpExpression, List.get?, binOpMaybeOperatorKind, hop, hlt, hrt]
  have hkinds : lt.kind = k ∧ rt.kind = k := by
    have h := amp_lookup_forces_kinds lt.kind hlk rt.kind hrk
    unfold ampForcesKind at h
    rw [hlookup] at h
    have h2 : (if k = TypeKind.record ∨ k = TypeKind.table
        then (lt.kind == k && rt.kind == k) else true) = true := h
    rw [if_pos hk, Bool.and_eq_true] at h2
    simp only [beq_iff_eq] at h2
    exact h2
  have hfull : binOpFullBranch lt rt ArithmeticOperatorKind.and
      = inspectRecordOrTableUnion lt rt := by
    unfold binOpFullBranch
    rw [hlookup]
    exact if_pos ⟨rfl, hk⟩
  have hne : ¬ lt.kind ≠ rt.kind := fun hcon => hcon (hkinds.1.trans hkinds.2.symm)
  refine ⟨?_, ?_, ?_, ?_⟩
  · intro h1 h2
    rw [hbranch, hfull]
    unfold inspectRecordOrTableUnion
    rw [if_neg hne, if_pos ⟨h1, h2⟩, hkinds.1]
  · intro h1 h2
    rw [hbranch, hfull]
    unfold inspectRecordOrTableUnion
    have hcond2 : ¬ (lt.maybeExtendedKind = none ∧ rt.maybeExtendedKind = none) :=
      fun hc => h1 hc.1
    rw [if_neg hne, if_neg hcond2, if_pos (Or.inl ⟨h1, h2⟩), if_pos h1]
  · intro h1 h2
    rw [hbranch, hfull]
    unfold inspectRecordOrTableUnion
    have hcond2 : ¬ (lt.maybeExtendedKind = none ∧ rt.maybeExtendedKind = none) :=
      fun hc => h2 hc.2
    have hinner : ¬ lt.maybeExtendedKind ≠ none := fun hc => hc h1
    rw [if_neg hne, if_neg hcond2, if_pos (Or.inr ⟨h1, h2⟩), if_neg hinner]
  · intro e h1 h2
    have heq : lt.maybeExtendedKind = rt.maybeExtendedKind := h1.trans h2.symm
    have hcond2 : ¬ (lt.maybeExtendedKind = none ∧ rt.maybeExtendedKind = none) :=
      fun hc => Option.noConfusion (h1.symm.trans hc.1)
    have hcond3 : ¬ ((lt.maybeExtendedKind ≠ none ∧ rt.maybeExtendedKind = none)
        ∨ (lt.maybeExtendedKind = none ∧ rt.maybeExtendedKind ≠ none)) := by
      rintro (⟨_, hr⟩ | ⟨hl, _⟩)
      · exact Option.noConfusion (h2.symm.trans hr)
      · exact Option.noConfusion (h1.symm.trans hl)
    refine ⟨?_, ?_, ?_, ?_⟩
    · rw [hbranch, hfull]
      unfold inspectRecordOrTableUnion
      rw [if_neg hne, if_neg hcond2, if_neg hcond3, if_pos heq]
    · intro key
      simp only [unionFields, TType.fields]
      exact jsMapGet_foldl_set rt.fields lt.fields key
    · simp only [unionFields, TType.isNullable]
    · simp only [unionFields, TType.isOpen]

/-- An extended record value with one field, closed, not nullable. -/
def definedRecordA : TType :=
  TType.mk TypeKind.record (some "DefinedRecord") false
    [("a", primitiveTypeFactory false TypeKind.number)] false []

/-- An extended record value overriding field a and adding field b, open. -/
def definedRecordB : TType :=
  TType.mk TypeKind.record (some "DefinedRecord") true
    [("a", primitiveTypeFactory false TypeKind.text),
     ("b", primitiveTypeFactory false TypeKind.logical)] true []

/-- The finished combine-operator constant. -/
def ampConstantNode : AstNode :=
  { id := 11, kind := NodeKind.constant, maybeAttributeIndex := some 1,
    maybeConstantKind := some ArithmeticOperatorKind.and }

/-- The left record-expression operand of the concrete combine. -/
def c5LeftNode : AstNode :=
  { id := 9, kind := "RecordExpression", maybeAttributeIndex := some 0, literal := "L" }

/-- The right record-expression operand of the concrete combine. -/
def c5RightNode : AstNode :=
  { id := 12, kind := "RecordExpression", maybeAttributeIndex := some 2, literal := "R" }

/-- An inspection oracle for the concrete combine, standing for the recursive
inspection of the two record operands. -/
def c5InspectXor (x : XorNode) : TType :=
  match x with
  | XorNode.ast a =>
      if a.literal = "L" then definedRecordA
      else if a.literal = "R" then definedRecordB
      else UnknownInstance
  | XorNode.context _ => UnknownInstance

/-- Witness for C5: combining two extended records merges right-biased,
with and-ed nullability and or-ed openness. -/
theorem claim_C5_record_table_combine_witness :
    inspectTypeTBinOpExpression c5InspectXor
        [XorNode.ast c5LeftNode, XorNode.ast ampConstantNode, XorNode.ast c5RightNode]
      = Except.ok (unionFields definedRecordA definedRecordB)
    ∧ jsMapGet (unionFields definedRecordA definedRecordB).fields "a"
      = some (primitiveTypeFactory false TypeKind.text)
    ∧ jsMapGet (unionFields definedRecordA definedRecordB).fields "b"
      = some (primitiveTypeFactory false TypeKind.logical)
    ∧ (unionFields definedRecordA definedRecordB).isNullable = false
    ∧ (unionFields definedRecordA definedRecordB).isOpen = true := by
  have h := claim_C5_record_table_combine c5InspectXor
    [XorNode.ast c5LeftNode, XorNode.ast ampConstantNode, XorNode.ast c5RightNode]
    c5LeftNode ampConstantNode c5RightNode definedRecordA definedRecordB TypeKind.record
    rfl rfl rfl rfl (by decide) (by decide) (by decide) (Or.inl rfl)
  obtain ⟨heq, hget, hnull, hopen⟩ := h.2.2.2 "DefinedRecord" rfl rfl
  refine ⟨heq, ?_, ?_, ?_, ?_⟩
  · rw [hget "a"]; rfl
  · rw [hget "b"]; rfl
  · rw [hnull]; rfl
  · rw [hopen]; rfl

/-! Parser state, parse contexts, fast backup and rollback
(src/unnamed/part_002), and the top-level tryRead (src/unnamed/part_001). -/

/-- JS `Map.get` over number keys. -/
def natMapGet {β : Type} (entries : List (Nat × β)) (key : Nat) : Option β :=
  (entries.reverse.find? (fun p => p.1 == key)).map (fun p => p.2)

/-- JS `Map.set` over number keys. -/
def natMapSet {β : Type} (entries : List (Nat × β)) (key : Nat) (v : β) :
    List (Nat × β) :=
  if (natMapGet entries key).isSome then
    entries.map (fun p => if p.1 == key then (p.1, v) else p)
  else
    entries ++ [(key, v)]

/-- JS `Map.delete` over number keys. -/
def natMapDelete {β : Type} (entries : List (Nat × β)) (key : Nat) :
    List (Nat × β) :=
  entries.filter (fun p => !(p.1 == key))

/-- JS `Map.keys()` over number keys (insertion order; keys are unique). -/
def natMapKeys {β : Type} (entries : List (Nat × β)) : List Nat :=
  entries.foldl (fun acc p => if acc.contains p.1 then acc else acc ++ [p.1]) []

structure Token where
  kind : String := ""
  data : String := ""
deriving DecidableEq, Repr

/-- The dual-mode node-id map bundle (spec section 3). -/
structure Collection where
  astNodeById : List (Nat × AstNode) := []
  contextNodeById : List (Nat × ContextNode) := []
  parentIdById : List (Nat × Nat) := []
  childIdsById : List (Nat × List Nat) := []
deriving DecidableEq, Repr

/-- `ParseContext.State` (spec section 3). -/
structure ContextState where
  root : Option Nat := none
  idCounter : Nat := 0
  nodeIdMapCollection : Collection := {}
  leafNodeIds : List Nat := []
deriving DecidableEq, Repr

/-- `IParserState` restricted to the fields the embedded operations read. -/
structure IParserState where
  tokens : List Token := []
  tokenIndex : Nat := 0
  maybeCurrentToken : Option Token := none
  maybeCurrentTokenKind : Option String := none
  contextState : ContextState := {}
  maybeCurrentContextNode : Option ContextNode := none
deriving DecidableEq, Repr

structure FastStateBackup where
  tokenIndex : Nat
  contextStateIdCounter : Nat
  maybeContextNodeId : Option Nat
deriving DecidableEq, Repr

/-- `fastStateBackup` (src/unnamed/part_002 lines 59-65). -/
def fastStateBackup (state : IParserState) : FastStateBackup :=
  { tokenIndex := state.tokenIndex,
    contextStateIdCounter := state.contextState.idCounter,
    maybeContextNodeId := state.maybeCurrentContextNode.map (fun c => c.id) }

/-- Modelled from the spec: the terminal Ast node kinds recorded in
`leafNodeIds` (spec section 3, invariant 6: leaf ids are the ids of terminal
AST nodes such as constants, identifiers and literals). -/
def terminalNodeKinds : List String :=
  [NodeKind.constant, NodeKind.identifier, "GeneralizedIdentifier",
   NodeKind.literalExpression, NodeKind.primitiveType]

namespace ParseContextUtils

/-- Modelled from the spec: `ParseContextUtils.startContext` (section 4.2,
missing from src).  Allocates the next id from the monotonic counter, parents
the new context under the given current context, appends the id to the
parent's child list and advances the parent's attribute counter. -/
def startContext (contextState : ContextState) (nodeKind : String)
    (tokenIndexStart : Nat) (maybeParentNode : Option ContextNode) :
    ContextState × ContextNode :=
  let nextId := contextState.idCounter + 1
  let collection := contextState.nodeIdMapCollection
  match maybeParentNode with
  | none =>
      let newNode : ContextNode :=
        { id := nextId, kind := nodeKind, tokenIndexStart, attributeCounter := 0,
          maybeAttributeIndex := none }
      ({ contextState with
          idCounter := nextId,
          root := some nextId,
          nodeIdMapCollection :=
            { collection with
                contextNodeById := natMapSet collection.contextNodeById nextId newNode } },
        newNode)
  | some parentNode =>
      let newNode : ContextNode :=
        { id := nextId, kind := nodeKind, tokenIndexStart,
          attributeCounter := 0,
          maybeAttributeIndex := some parentNode.attributeCounter }
      let bumpedParent := { parentNode with attributeCounter := parentNode.attributeCounter + 1 }
      let newChildIds :=
        match natMapGet collection.childIdsById parentNode.id with
        | some childIds => childIds ++ [nextId]
        | none => [nextId]
      ({ contextState with
          idCounter := nextId,
          nodeIdMapCollection :=
            { collection with
                contextNodeById :=
                  natMapSet (natMapSet collection.contextNodeById parentNode.id bumpedParent)
                    nextId newNode,
                parentIdById := natMapSet collection.parentIdById nextId parentNode.id,
                childIdsById := natMapSet collection.childIdsById parentNode.id newChildIds } },
        newNode)

/-- Modelled from the spec: `ParseContextUtils.endContext` (section 4.2,
missing from src).  Promotes the current context: the AST payload occupies
the same id, the id moves from `contextNodeById` to `astNodeById`, terminal
nodes are recorded in `leafNodeIds`, and the parent becomes current. -/
def endContext (contextState : ContextState) (contextNode : ContextNode)
    (astNode : AstNode) : ContextState × Option ContextNode :=
  let collection := contextState.nodeIdMapCollection
  let newLeafNodeIds :=
    if terminalNodeKinds.contains astNode.kind then
      contextState.leafNodeIds ++ [contextNode.id]
    else contextState.leafNodeIds
  let newState :=
    { contextState with
        nodeIdMapCollection :=
          { collection with
              contextNodeById := natMapDelete collection.contextNodeById contextNode.id,
              astNodeById := natMapSet collection.astNodeById contextNode.id astNode },
        leafNodeIds := newLeafNodeIds }
  let maybeParent :=
    match natMapGet collection.parentIdById contextNode.id with
    | some parentId => natMapGet collection.contextNodeById parentId
    | none => none
  (newState, maybeParent)

/-- Modelled from the spec: `ParseContextUtils.deleteContext` (sections 3 and
4.2, missing from src).  Removes the context from the maps; its children are
reparented to its parent in place, preserving order; returns the parent as
the new current context. -/
def deleteContext (contextState : ContextState) (nodeId : Nat) :
    ContextState × Option ContextNode :=
  let collection := contextState.nodeIdMapCollection
  let maybeParentId := natMapGet collection.parentIdById nodeId
  let childIds := (natMapGet collection.childIdsById nodeId).getD []
  let parentAdjusted :=
    match maybeParentId with
    | some parentId =>
        match natMapGet collection.childIdsById parentId with
        | some parentChildIds =>
            natMapSet collection.childIdsById parentId
              (parentChildIds.foldr
                (fun i acc => if i == nodeId then childIds ++ acc else i :: acc) [])
        | none => collection.childIdsById
    | none => collection.childIdsById
  let reparented :=
    match maybeParentId with
    | some parentId =>
        childIds.foldl (fun m c => natMapSet m c parentId)
          (natMapDelete collection.parentIdById nodeId)
    | none => childIds.foldl (fun m c => natMapDelete m c)
        (natMapDelete collection.parentIdById nodeId)
  let newCollection :=
    { collection with
        contextNodeById := natMapDelete collection.contextNodeById nodeId,
        parentIdById := reparented,
        childIdsById := natMapDelete parentAdjusted nodeId }
  let maybeParent :=
    match maybeParentId with
    | some parentId => natMapGet newCollection.contextNodeById parentId
    | none => none
  ({ contextState with nodeIdMapCollection := newCollection }, maybeParent)

/-- Modelled from the spec: `ParseContextUtils.deleteAst` (section 4.3,
missing from src).  Removes the AST node from the maps and from
`leafNodeIds`; when the `parentWillBeDeleted` hint is set the rewiring of the
parent's child list is skipped (the spec calls it a hint to skip redundant
rewiring, the parent's own entries being deleted wholesale later). -/
def deleteAst (contextState : ContextState) (nodeId : Nat)
    (parentWillBeDeleted : Bool) : ContextState :=
  let collection := contextState.nodeIdMapCollection
  let maybeParentId := natMapGet collection.parentIdById nodeId
  let rewired :=
    match maybeParentId with
    | some parentId =>
        if parentWillBeDeleted then collection.childIdsById
        else
          match natMapGet collection.childIdsById parentId with
          | some parentChildIds =>
              natMapSet collection.childIdsById parentId
                (parentChildIds.filter (fun i => !(i == nodeId)))
          | none => collection.childIdsById
    | none => collection.childIdsById
  { contextState with
      nodeIdMapCollection :=
        { collection with
            astNodeById := natMapDelete collection.astNodeById nodeId,
            parentIdById := natMapDelete collection.parentIdById nodeId,
            childIdsById := natMapDelete rewired nodeId },
      leafNodeIds := contextState.leafNodeIds.filter (fun i => !(i == nodeId)) }

end ParseContextUtils

/-- Ascending insertion used to model `Array.sort(sortByNumber)`. -/
def insertAsc (n : Nat) : List Nat → List Nat
  | [] => [n]
  | m :: rest => if n ≤ m then n :: m :: rest else m :: insertAsc n rest

/-- `Array.sort` with the numeric comparator. -/
def sortAsc (l : List Nat) : List Nat := l.foldr insertAsc []

/-- `applyFastStateBackup` (src/unnamed/part_002 lines 68-109): restore the
token cursor, reset the id counter, then delete every id strictly greater
than the backup counter: AST ids first (descending, with the
`parentWillBeDeleted` hint computed as parentId greater than or equal to the
backup counter), then context ids (descending); finally re-point the current
context from the backup id (JS falsy test on the id). -/
def applyFastStateBackup (state : IParserState) (backup : FastStateBackup) :
    IParserState :=
  let tokenIndex := backup.tokenIndex
  let maybeCurrentToken := state.tokens.get? tokenIndex
  let backupIdCounter := backup.contextStateIdCounter
  let collection0 := state.contextState.nodeIdMapCollection
  let newAstNodeIds :=
    (natMapKeys collection0.astNodeById).filter (fun i => backupIdCounter < i)
  let newContextNodeIds :=
    (natMapKeys collection0.contextNodeById).filter (fun i => backupIdCounter < i)
  let contextState1 := { state.contextState with idCounter := backupIdCounter }
  let contextState2 :=
    (sortAsc newAstNodeIds).reverse.foldl
      (fun cs nodeId =>
        let maybeParentId := natMapGet cs.nodeIdMapCollection.parentIdById nodeId
        let parentWillBeDeleted :=
          match maybeParentId with
          | some parentId => decide (backupIdCounter ≤ parentId)
          | none => false
        ParseContextUtils.deleteAst cs nodeId parentWillBeDeleted)
      contextState1
  let contextState3 :=
    (sortAsc newContextNodeIds).reverse.foldl
      (fun cs nodeId => (ParseContextUtils.deleteContext cs nodeId).1) contextState2
  let maybeCurrentContextNode :=
    match backup.maybeContextNodeId with
    | some cid =>
        if cid = 0 then none
        else natMapGet contextState3.nodeIdMapCollection.contextNodeById cid
    | none => none
  { state with
      tokenIndex, maybeCurrentToken,
      maybeCurrentTokenKind := maybeCurrentToken.map Token.kind,
      contextState := contextState3,
      maybeCurrentContextNode }

namespace IParserStateUtils

/-- `IParserStateUtils.startContext` (src/unnamed/part_002 lines 111-120). -/
def startContext (state : IParserState) (nodeKind : String) : IParserState :=
  let scr := ParseContextUtils.startContext state.contextState nodeKind
    state.tokenIndex state.maybeCurrentContextNode
  { state with contextState := scr.1, maybeCurrentContextNode := some scr.2 }

/-- `IParserStateUtils.endContext` (src/unnamed/part_002 lines 122-131);
the no-current-context assertion case is unreachable here. -/
def endContext (state : IParserState) (astNode : AstNode) : IParserState :=
  match state.maybeCurrentContextNode with
  | none => state
  | some current =>
      let ecr := ParseContextUtils.endContext state.contextState current astNode
      { state with contextState := ecr.1, maybeCurrentContextNode := ecr.2 }

end IParserStateUtils

/-- Modelled from the spec: advancing past the current token (the reader in
`IParser`, missing from src): bump the index and refresh the cached current
token and kind. -/
def readTokenAdvance (state : IParserState) : IParserState :=
  let tokenIndex := state.tokenIndex + 1
  { state with
      tokenIndex,
      maybeCurrentToken := state.tokens.get? tokenIndex,
      maybeCurrentTokenKind := (state.tokens.get? tokenIndex).map Token.kind }

/-! tryRead (src/unnamed/part_001) and its error taxonomy. -/

inductive InnerParseError : Type where
  | expectedTokenKind (tag : String)
  | unusedTokensRemain (token : Token)
  | csvContinuation (tag : String)
deriving DecidableEq, Repr

inductive InnerCommonError : Type where
  | invariantError (message : String)
  | cancellationError
  | unknownError (message : String)
deriving DecidableEq, Repr

/-- `CommonError.CommonError` wrapping one inner common error. -/
structure CommonError where
  innerError : InnerCommonError
deriving DecidableEq, Repr

inductive OtherFault : Type where
  | innerCommon (e : InnerCommonError)
  | foreign (message : String)
deriving DecidableEq, Repr

/-- A fault escaping `parser.read`: either one of the parser's own inner
parse errors, or any other fault (an inner common error, or a foreign
error). -/
inductive ReadFault : Type where
  | inner (e : InnerParseError)
  | other (e : OtherFault)
deriving DecidableEq, Repr

/-- `CommonError.ensureCommonError` (src/src/common/error.ts lines 51-59):
recognized inner common errors are wrapped as-is, anything else becomes an
UnknownError. -/
def ensureCommonError : OtherFault → CommonError
  | OtherFault.innerCommon e => ⟨e⟩
  | OtherFault.foreign message => ⟨InnerCommonError.unknownError message⟩

/-- What a `ParseError.ParseError` carries: normally an inner parse error;
the unused-tokens assertion can also wrap an invariant error when the token
index is past the end. -/
inductive ParseErrorPayload : Type where
  | fromParse (e : InnerParseError)
  | fromInvariant (e : InnerCommonError)
deriving DecidableEq, Repr

inductive TParseError : Type where
  | parseError (payload : ParseErrorPayload) (state : IParserState)
  | commonError (e : CommonError)
deriving DecidableEq, Repr

structure ParseOk where
  root : AstNode
  nodeIdMapCollection : Collection
  leafNodeIds : List Nat
  state : IParserState
deriving DecidableEq, Repr

/-- `assertNoOpenContext` (src/unnamed/part_002 lines 369-373), with the
thrown assertion surfaced as a value. -/
def assertNoOpenContext (state : IParserState) : Option InnerCommonError :=
  match state.maybeCurrentContextNode with
  | some _ => some (InnerCommonError.invariantError "maybeCurrentContextNode is defined")
  | none => none

/-- `assertNoMoreTokens` (src/unnamed/part_002 lines 356-367): fine when the
index equals the token count; an unused-tokens error at the current token
otherwise; assertGetTokenAt raises an invariant error past the end. -/
def assertNoMoreTokens (state : IParserState) : Option ParseErrorPayload :=
  if state.tokenIndex = state.tokens.length then none
  else
    match state.tokens.get? state.tokenIndex with
    | some token => some (ParseErrorPayload.fromParse (InnerParseError.unusedTokensRemain token))
    | none => some (ParseErrorPayload.fromInvariant (InnerCommonError.invariantError "assertGetTokenAt"))

/-- `tryRead` (src/unnamed/part_001 lines 11-47).  `readResult` stands for
the outcome of `parser.read(state, parser)`: a root node, or a thrown
fault. -/
def tryRead (state : IParserState) (readResult : Except ReadFault AstNode) :
    Except TParseError ParseOk :=
  match readResult with
  | Except.error fault =>
      match fault with
      | ReadFault.inner e =>
          Except.error (TParseError.parseError (ParseErrorPayload.fromParse e) state)
      | ReadFault.other e =>
          Except.error (TParseError.commonError (ensureCommonError e))
  | Except.ok root =>
      match assertNoOpenContext state with
      | some e => Except.error (TParseError.commonError ⟨e⟩)
      | none =>
          match assertNoMoreTokens state with
          | some payload => Except.error (TParseError.parseError payload state)
          | none =>
              Except.ok
                { root,
                  nodeIdMapCollection := state.contextState.nodeIdMapCollection,
                  leafNodeIds := state.contextState.leafNodeIds,
                  state }

/-- The single-token input stream for the rollback scenario. -/
def c1Tokens : List Token := [{ kind := "NumericLiteral", data := "1" }]

/-- The state at backup time: the root expression context (id 1, equal to
the id counter) has just been started and is current. -/
def c1BackupState : IParserState :=
  IParserStateUtils.startContext
    { tokens := c1Tokens, tokenIndex := 0,
      maybeCurrentToken := c1Tokens.get? 0,
      maybeCurrentTokenKind := (c1Tokens.get? 0).map Token.kind }
    NodeKind.arithmeticExpression

/-- The promoted literal produced by the tentative read. -/
def c1LiteralAst : AstNode :=
  { id := 2, kind := NodeKind.literalExpression, maybeAttributeIndex := some 0,
    literal := "1", literalKind := some "Numeric" }

/-- The state after the tentative read: a literal context (id 2) was started
under the backup-time current context (id 1), consumed one token, and was
promoted to an AST node. -/
def c1ParsedState : IParserState :=
  IParserStateUtils.endContext
    (readTokenAdvance
      (IParserStateUtils.startContext c1BackupState NodeKind.literalExpression))
    c1LiteralAst

/-- C1: at the failing input, rollback restores the token index and removes
every id above the backup counter from both node maps, but the hint
comparison (parent id greater than OR EQUAL to the backup counter) wrongly
marks the surviving parent (id exactly equal to the counter) as
to-be-deleted, so the deleted AST id 2 is left dangling in the parent's
child list, where the backup-time map had no such child entry: the claimed
observational equality of parent/child relations fails. -/
theorem claim_C1_rollback_divergence :
    fastStateBackup c1BackupState
      = { tokenIndex := 0, contextStateIdCounter := 1, maybeContextNodeId := some 1 }
    ∧ (applyFastStateBackup c1ParsedState (fastStateBackup c1BackupState)).tokenIndex = 0
    ∧ natMapGet (applyFastStateBackup c1ParsedState
        (fastStateBackup c1BackupState)).contextState.nodeIdMapCollection.astNodeById 2
      = none
    ∧ natMapGet (applyFastStateBackup c1ParsedState
        (fastStateBackup c1BackupState)).contextState.nodeIdMapCollection.contextNodeById 2
      = none
    ∧ natMapGet (applyFastStateBackup c1ParsedState
        (fastStateBackup c1BackupState)).contextState.nodeIdMapCollection.childIdsById 1
      = some [2]
    ∧ natMapGet c1BackupState.contextState.nodeIdMapCollection.childIdsById 1 = none := by
  decide

/-- C2: tryRead returns a ParseError carrying the state exactly when
parser.read throws an inner parse error; a CommonError when the read throws
any other fault, and also when the read succeeds but a context remains open;
a ParseError wrapping UnusedTokensRemainError (still carrying the state)
when the read succeeds with no open context but unconsumed tokens remain;
and otherwise ok with root, id map collection, leaf ids and state. -/
theorem claim_C2_tryRead_boundary (state : IParserState)
    (readResult : Except ReadFault AstNode) :
    (∀ e, readResult = Except.error (ReadFault.inner e) →
      tryRead state readResult
        = Except.error (TParseError.parseError (ParseErrorPayload.fromParse e) state))
    ∧ (∀ e, readResult = Except.error (ReadFault.other e) →
      tryRead state readResult
        = Except.error (TParseError.commonError (ensureCommonError e)))
    ∧ (∀ root c, readResult = Except.ok root → state.maybeCurrentContextNode = some c →
      tryRead state readResult
        = Except.error (TParseError.commonError
            ⟨InnerCommonError.invariantError "maybeCurrentContextNode is defined"⟩))
    ∧ (∀ root, readResult = Except.ok root → state.maybeCurrentContextNode = none →
      state.tokenIndex < state.tokens.length →
      ∀ token, state.tokens.get? state.tokenIndex = some token →
      tryRead state readResult
        = Except.error (TParseError.parseError
            (ParseErrorPayload.fromParse (InnerParseError.unusedTokensRemain token)) state))
    ∧ (∀ root, readResult = Except.ok root → state.maybeCurrentContextNode = none →
      state.tokenIndex = state.tokens.length →
      tryRead state readResult
        = Except.ok
            { root,
              nodeIdMapCollection := state.contextState.nodeIdMapCollection,
              leafNodeIds := state.contextState.leafNodeIds,
              state }) := by
  refine ⟨?_, ?_, ?_, ?_, ?_⟩
  · intro e h; subst h; rfl
  · intro e h; subst h; rfl
  · intro root c h hc; subst h
    simp [tryRead, assertNoOpenContext, hc]
  · intro root h hc hlt token htok; subst h
    have hne : state.tokenIndex ≠ state.tokens.length := Nat.ne_of_lt hlt
    simp only [List.get?_eq_getElem?] at htok
    simp [tryRead, assertNoOpenContext, hc, assertNoMoreTokens, hne, htok]
  · intro root h hc heq; subst h
    simp [tryRead, assertNoOpenContext, hc, assertNoMoreTokens, heq]

/-- A closed parse state whose token cursor sits at the end of the stream. -/
def c2OkState : IParserState := { tokens := c1Tokens, tokenIndex := 1 }

/-- Witness for C2: the concrete success case, and the concrete
unused-tokens case one token earlier. -/
theorem claim_C2_tryRead_boundary_witness :
    tryRead c2OkState (Except.ok c1LiteralAst)
      = Except.ok
          { root := c1LiteralAst,
            nodeIdMapCollection := c2OkState.contextState.nodeIdMapCollection,
            leafNodeIds := c2OkState.contextState.leafNodeIds,
            state := c2OkState }
    ∧ tryRead { tokens := c1Tokens, tokenIndex := 0 } (Except.ok c1LiteralAst)
      = Except.error (TParseError.parseError
          (ParseErrorPayload.fromParse (InnerParseError.unusedTokensRemain
            { kind := "NumericLiteral", data := "1" }))
          { tokens := c1Tokens, tokenIndex := 0 }) := by
  constructor
  · exact (claim_C2_tryRead_boundary c2OkState (Except.ok c1LiteralAst)).2.2.2.2
      c1LiteralAst rfl rfl (by decide)
  · exact (claim_C2_tryRead_boundary { tokens := c1Tokens, tokenIndex := 0 }
      (Except.ok c1LiteralAst)).2.2.2.1
      c1LiteralAst rfl rfl (by decide) { kind := "NumericLiteral", data := "1" } rfl

/-! The autocomplete engine
(src/src/inspection/autocomplete/autocompleteKeyword/autocompleteKeyword.ts
and src/src/inspection/autocomplete/autocompletePrimitiveType.ts). -/

namespace Keyword

/-- Modelled from the spec: `Keyword.KeywordKind` string values (missing
from src); keyword constants spell themselves in lower case (spec glossary,
conjunction keywords and, as, is, meta, or; scenario S10 gives let). -/
def andKw : String := "and"

def asKw : String := "as"

def eachKw : String := "each"

def errorKw : String := "error"

def falseKw : String := "false"

def ifKw : String := "if"

def isKw : String := "is"

def letKw : String := "let"

def metaKw : String := "meta"

def notKw : String := "not"

def orKw : String := "or"

def sectionKw : String := "section"

def trueKw : String := "true"

def tryKw : String := "try"

def typeKw : String := "type"

/-- Modelled from the spec: `Keyword.ExpressionKeywordKinds` (missing from
src), the keywords that may start an expression. -/
def ExpressionKeywordKinds : List String :=
  [eachKw, errorKw, falseKw, ifKw, letKw, notKw, trueKw, tryKw, typeKw]

/-- Modelled from the spec: `Keyword.StartOfDocumentKeywords` (missing from
src), the keywords valid at the start of a document: the expression starters
plus the section keyword (spec scenario S10). -/
def StartOfDocumentKeywords : List String :=
  ExpressionKeywordKinds ++ [sectionKw]

end Keyword

/-- `ConjunctionKeywords` (autocompleteKeyword.ts lines 70-76). -/
def ConjunctionKeywords : List String :=
  [Keyword.andKw, Keyword.asKw, Keyword.isKw, Keyword.metaKw, Keyword.orKw]

/-- Modelled from the spec: `ArrayUtils.concatUnique` (missing from src):
concatenation with duplicates removed, the first occurrence winning. -/
def concatUnique (left right : List String) : List String :=
  right.foldl (fun acc k => if acc.contains k then acc else acc ++ [k]) left

/-- Strict lexicographic order on caret positions. -/
def positionLtB (a b : Position) : Bool :=
  decide (a.lineNumber < b.lineNumber
    ∨ (a.lineNumber = b.lineNumber ∧ a.lineCodeUnit < b.lineCodeUnit))

def positionLeB (a b : Position) : Bool :=
  positionLtB a b || decide (a = b)

/-- Modelled from the spec: `PositionUtils.isAfterAst` (missing from src):
the caret lies after the node's end; with the bound included, sitting exactly
on the end boundary also counts (spec section 4.5). -/
def isAfterAst (position : Position) (node : AstNode) (isBoundIncluded : Bool) :
    Bool :=
  if isBoundIncluded then positionLeB node.positionEnd position
  else positionLtB node.positionEnd position

/-- Modelled from the spec: `PositionUtils.isInXor` (missing from src): the
caret lies within the leaf's token range, each bound included when its flag
is set (spec section 4.5); an open context carries no finished range here. -/
def isInXor (position : Position) (x : XorNode)
    (astLowerBoundIncluded astUpperBoundIncluded : Bool) : Bool :=
  match x with
  | XorNode.ast node =>
      (if astLowerBoundIncluded then positionLeB node.positionStart position
       else positionLtB node.positionStart position)
      && (if astUpperBoundIncluded then positionLeB position node.positionEnd
       else positionLtB position node.positionEnd)
  | XorNode.context _ => false

/-- Modelled from the spec: `PositionUtils.isAfterTokenPosition` (missing
from src): the caret lies after the given token start. -/
def isAfterTokenPosition (position tokenPositionStart : Position)
    (isBoundIncluded : Bool) : Bool :=
  if isBoundIncluded then positionLeB tokenPositionStart position
  else positionLtB tokenPositionStart position

inductive ActiveNodeLeafKind : Type where
  | onAstNode
  | afterAstNode
  | contextNode
deriving DecidableEq, Repr

/-- Modelled from the spec: the trailing-token record consumed by the
autocomplete pipelines (inspection commonTypes, missing from src): its text,
its start position, and whether the caret is in or on it. -/
structure TrailingToken where
  data : String := ""
  positionStart : Position := ⟨0, 0⟩
  isInOrOnPosition : Bool := false
deriving DecidableEq, Repr

/-- The active node (spec section 3): caret position, leaf-first ancestry,
leaf classification, and the identifier under the caret when there is one. -/
structure ActiveNode where
  position : Position := ⟨0, 0⟩
  ancestry : List XorNode := []
  leafKind : ActiveNodeLeafKind := ActiveNodeLeafKind.onAstNode
  maybeIdentifierUnderPosition : Option AstNode := none
deriving DecidableEq, Repr

/-- Modelled from the spec: the collaborators of autocompleteKeyword that
live outside src: the per-parent-kind ancestry routines reached through the
dispatch switch (ErrorHandlingExpression, IdentifierPairedExpression,
LetExpression, ListExpression, SectionMember, default), the
`XorNodeUtils.isTUnaryType` leaf test, and `autocompleteKeywordTrailingText`. -/
structure AutocompleteKeywordDeps where
  dispatch : XorNode → XorNode → Nat → Option (List String)
  isTUnaryType : XorNode → Bool
  trailingText : List String → TrailingToken → Option (List String) → List String

/-- `handleConjunctions` (autocompleteKeyword.ts lines 184-223), branch for
branch. -/
def handleConjunctions (deps : AutocompleteKeywordDeps) (activeNode : ActiveNode)
    (inspected : List String) (maybeTrailingToken : Option TrailingToken) :
    List String :=
  if activeNode.leafKind ≠ ActiveNodeLeafKind.afterAstNode
      ∧ activeNode.leafKind ≠ ActiveNodeLeafKind.contextNode then
    inspected
  else
    match activeNode.ancestry.head? with
    | none => inspected
    | some activeNodeLeaf =>
        match maybeTrailingToken with
        | some trailingToken =>
            if trailingToken.isInOrOnPosition then
              deps.trailingText inspected trailingToken none
            else if deps.isTUnaryType activeNodeLeaf then
              if isAfterTokenPosition activeNode.position trailingToken.positionStart false then
                inspected
              else
                match activeNodeLeaf with
                | XorNode.ast _ => concatUnique inspected ConjunctionKeywords
                | XorNode.context _ => inspected
            else inspected
        | none =>
            if deps.isTUnaryType activeNodeLeaf then
              match activeNodeLeaf with
              | XorNode.ast _ => concatUnique inspected ConjunctionKeywords
              | XorNode.context _ => inspected
            else inspected

/-- The body of the `traverseAncestors` loop (autocompleteKeyword.ts lines
82-123): pairs (parent, child) from index 1 upward; a routine result halts
the walk, exhaustion yields the empty list.  The fuel equals the ancestry
length, enough for every index the source loop visits. -/
def traverseLoop (deps : AutocompleteKeywordDeps) (ancestry : List XorNode) :
    Nat → Nat → List String
  | 0, _ => []
  | fuel + 1, ancestryIndex =>
      match ancestry.get? ancestryIndex, ancestry.get? (ancestryIndex - 1) with
      | some parent, some child =>
          match deps.dispatch parent child ancestryIndex with
          | some inspected => inspected
          | none => traverseLoop deps ancestry fuel (ancestryIndex + 1)
      | _, _ => []

def traverseAncestors (deps : AutocompleteKeywordDeps) (activeNode : ActiveNode) :
    List String :=
  traverseLoop deps activeNode.ancestry activeNode.ancestry.length 1

/-- First edge case (autocompleteKeyword.ts lines 135-146): a lone
identifier under an IdentifierExpression with no trailing token. -/
def edgeCase1Applies (activeNode : ActiveNode)
    (maybeTrailingToken : Option TrailingToken) : Bool :=
  maybeTrailingToken.isNone
  && activeNode.ancestry.length == 2
  && (match activeNode.ancestry.get? 0 with
      | some (XorNode.ast a) => a.kind == NodeKind.identifier
      | _ => false)
  && (match activeNode.ancestry.get? 1 with
      | some x => x.nodeKind == NodeKind.identifierExpression
      | none => false)

/-- Second edge case (lines 149-156): caret after a parameter-name
identifier. -/
def edgeCase2Applies (activeNode : ActiveNode) : Bool :=
  match activeNode.ancestry.get? 0 with
  | some (XorNode.ast a) =>
      a.kind == NodeKind.identifier
      && (match activeNode.ancestry.get? 1 with
          | some x => x.nodeKind == NodeKind.parameter
          | none => false)
      && isAfterAst activeNode.position a true
  | _ => false

/-- Third edge case (lines 159-167): trailing text a inside a parameter
list.  (A two-element ancestry would make the source's ancestry[2] access
throw; it is modelled as the guard simply failing.) -/
def edgeCase3Applies (activeNode : ActiveNode)
    (maybeTrailingToken : Option TrailingToken) : Bool :=
  (match maybeTrailingToken with
   | some t => t.data == "a"
   | none => false)
  && (match activeNode.ancestry.get? 0 with
      | some (XorNode.context c) => c.kind == NodeKind.constant
      | _ => false)
  && (match activeNode.ancestry.get? 1 with
      | some x => x.nodeKind == NodeKind.parameterList
      | none => false)
  && (match activeNode.ancestry.get? 2 with
      | some x => x.nodeKind == NodeKind.functionExpression
      | none => false)

/-- `maybeEdgeCase` (autocompleteKeyword.ts lines 125-170). -/
def maybeEdgeCase (activeNode : ActiveNode)
    (maybeTrailingToken : Option TrailingToken) : Option (List String) :=
  if edgeCase1Applies activeNode maybeTrailingToken then
    match activeNode.ancestry.get? 0 with
    | some (XorNode.ast identifierNode) =>
        some (Keyword.StartOfDocumentKeywords.filter
          (fun keywordKind => jsStartsWith keywordKind identifierNode.literal))
    | _ => none
  else if edgeCase2Applies activeNode then some [Keyword.asKw]
  else if edgeCase3Applies activeNode maybeTrailingToken then some [Keyword.asKw]
  else none

/-- `filterRecommendations` (autocompleteKeyword.ts lines 172-182). -/
def filterRecommendations (inspected : List String)
    (maybePositionName : Option String) : List String :=
  match maybePositionName with
  | none => inspected
  | some positionName => inspected.filter (fun kind => jsStartsWith kind positionName)

/-- The `maybePositionName` computation (autocompleteKeyword.ts lines
25-40): the identifier under the caret, or a logical/null literal the caret
is in or on. -/
def computeMaybePositionName (activeNode : ActiveNode) : Option String :=
  match activeNode.ancestry.head? with
  | none => none
  | some ancestryLeaf =>
      if isInXor activeNode.position ancestryLeaf false true then
        match activeNode.maybeIdentifierUnderPosition with
        | some ident => some ident.literal
        | none =>
            match ancestryLeaf with
            | XorNode.ast node =>
                if node.kind = NodeKind.literalExpression
                    ∧ (node.literalKind = some "Logical" ∨ node.literalKind = some "Null") then
                  some node.literal
                else none
            | XorNode.context _ => none
      else none

/-- `autocompleteKeyword` (autocompleteKeyword.ts lines 19-68). -/
def autocompleteKeyword (deps : AutocompleteKeywordDeps) (activeNode : ActiveNode)
    (maybeTrailingToken : Option TrailingToken) : List String :=
  let maybePositionName := computeMaybePositionName activeNode
  if activeNode.ancestry.length < 2 then
    filterRecommendations (handleConjunctions deps activeNode [] maybeTrailingToken)
      maybePositionName
  else
    match maybeEdgeCase activeNode maybeTrailingToken with
    | some earlyExitInspected => earlyExitInspected
    | none =>
        filterRecommendations
          (handleConjunctions deps activeNode (traverseAncestors deps activeNode)
            maybeTrailingToken)
          maybePositionName

/-- Modelled from the spec: `Constant.PrimitiveTypeConstantKinds` (missing
from src), the primitive-type names offered by the type autocomplete. -/
def PrimitiveTypeConstantKinds : List String :=
  ["action", "any", "anynonnull", "binary", "date", "datetime", "datetimezone",
   "duration", "function", "list", "logical", "none", "null", "number",
   "record", "table", "text", "time", "type"]

/-- `AncestryUtils.maybeNthNextXor` (src/src/parser/nodeIdMap/ancestryUtils.ts
lines 99-111). -/
def maybeNthNextXor (ancestry : List XorNode) (ancestryIndex n : Nat)
    (maybeAllowedNodeKinds : Option (List String)) : Option XorNode :=
  match ancestry.get? (ancestryIndex + n) with
  | none => none
  | some x =>
      match maybeAllowedNodeKinds with
      | some kinds => if kinds.contains x.nodeKind then some x else none
      | none => some x

/-- `AncestryUtils.maybeNthPreviousXor` (ancestryUtils.ts lines 77-89); a
negative JS index reads as absent. -/
def maybeNthPreviousXor (ancestry : List XorNode) (ancestryIndex n : Nat)
    (maybeAllowedNodeKinds : Option (List String)) : Option XorNode :=
  if n > ancestryIndex then none
  else
    match ancestry.get? (ancestryIndex - n) with
    | none => none
    | some x =>
        match maybeAllowedNodeKinds with
        | some kinds => if kinds.contains x.nodeKind then some x else none
        | none => some x

def XorNode.maybeAttributeIndexOf : XorNode → Option Nat
  | XorNode.ast a => a.maybeAttributeIndex
  | XorNode.context c => c.maybeAttributeIndex

namespace AutocompletePrimitiveType

/-- One step of the `traverseAncestors` walk of autocompletePrimitiveType.ts
(lines 39-94): the TypePrimaryType and FunctionExpression-parameter
patterns. -/
def stepAt (activeNode : ActiveNode) (index : Nat) : Option (List String) :=
  match activeNode.ancestry.get? index with
  | none => none
  | some parent =>
      let maybeChild : Option XorNode :=
        if index = 0 then none else activeNode.ancestry.get? (index - 1)
      if parent.nodeKind = NodeKind.typePrimaryType then
        match maybeChild with
        | none => some PrimitiveTypeConstantKinds
        | some child =>
            match child with
            | XorNode.ast childNode =>
                if child.maybeAttributeIndexOf = some 0
                    ∧ isAfterAst activeNode.position childNode true = true then
                  some PrimitiveTypeConstantKinds
                else none
            | XorNode.context _ => none
      else if parent.nodeKind = NodeKind.parameter
          ∧ (maybeNthNextXor activeNode.ancestry index 4
              (some [NodeKind.functionExpression])).isSome then
        match maybeNthPreviousXor activeNode.ancestry index 2 none with
        | none => none
        | some grandchild =>
            match grandchild with
            | XorNode.ast grandchildNode =>
                if grandchildNode.kind = NodeKind.constant
                    ∧ grandchildNode.maybeConstantKind = some Keyword.asKw
                    ∧ isAfterAst activeNode.position grandchildNode true = true then
                  some PrimitiveTypeConstantKinds
                else if grandchildNode.kind = NodeKind.nullablePrimitiveType then
                  match maybeNthPreviousXor activeNode.ancestry index 3 none with
                  | some greatGreatGrandchild =>
                      if greatGreatGrandchild.nodeKind = NodeKind.primitiveType then
                        some PrimitiveTypeConstantKinds
                      else none
                  | none => none
                else none
            | XorNode.context c =>
                if c.kind = NodeKind.nullablePrimitiveType then
                  match maybeNthPreviousXor activeNode.ancestry index 3 none with
                  | some greatGreatGrandchild =>
                      if greatGreatGrandchild.nodeKind = NodeKind.primitiveType then
                        some PrimitiveTypeConstantKinds
                      else none
                  | none => none
                else none
  else none

/-- The walk over ancestor indices 0, 1, ... (fuel is the ancestry
length). -/
def traverseLoop (activeNode : ActiveNode) : Nat → Nat → List String
  | 0, _ => []
  | fuel + 1, index =>
      if index < activeNode.ancestry.length then
        match stepAt activeNode index with
        | some inspected => inspected
        | none => traverseLoop activeNode fuel (index + 1)
      else []

/-- `traverseAncestors` (autocompletePrimitiveType.ts lines 31-97). -/
def traverseAncestors (activeNode : ActiveNode) : List String :=
  if activeNode.ancestry.length = 0 then []
  else traverseLoop activeNode activeNode.ancestry.length 0

/-- `filterRecommendations` (autocompletePrimitiveType.ts lines 17-29). -/
def filterRecommendations (inspected : List String)
    (maybeTrailingToken : Option TrailingToken) : List String :=
  match maybeTrailingToken with
  | none => inspected
  | some trailingToken =>
      inspected.filter (fun k => jsStartsWith k trailingToken.data)

end AutocompletePrimitiveType

/-- `autocompletePrimitiveType` (autocompletePrimitiveType.ts lines 10-15). -/
def autocompletePrimitiveType (activeNode : ActiveNode)
    (maybeTrailingToken : Option TrailingToken) : List String :=
  AutocompletePrimitiveType.filterRecommendations
    (AutocompletePrimitiveType.traverseAncestors activeNode) maybeTrailingToken

/-- C4 counterexample: for the partially parsed input 1 +, the inferred type
is not nullable, so the claimed Primitive(Number, nullable=true) is wrong. -/
theorem claim_C4_counterexample :
    exceptIsNullable (inspectTypeTBinOpExpression inspectXorLiteral c4Children)
      ≠ some true := by decide

/-- C4 (amended): for the partially parsed input 1 +, binary-op type
inference returns Primitive(Number, nullable=false) via the singleton partial
lookup on (Number, +). -/
theorem claim_C4_amended :
    inspectTypeTBinOpExpression inspectXorLiteral c4Children
      = Except.ok (primitiveTypeFactory false TypeKind.number) := rfl


theorem positionLt_not_le (a b : Position) (h : positionLtB a b = true) :
    positionLeB b a = false := by
  unfold positionLtB at h
  unfold positionLeB positionLtB
  rw [decide_eq_true_iff] at h
  cases a with
  | mk al au =>
      cases b with
      | mk bl bu =>
          simp only at h ⊢
          rw [Bool.or_eq_false_iff, decide_eq_false_iff_not, decide_eq_false_iff_not]
          constructor
          · intro hc
            rcases h with h | ⟨h1, h2⟩ <;> rcases hc with hc | ⟨hc1, hc2⟩ <;> omega
          · intro hc
            injection hc with h1 h2
            rcases h with h | ⟨hh1, hh2⟩ <;> omega

theorem concatUnique_cons (left : List String) (r : String) (rs : List String) :
    concatUnique left (r :: rs)
      = concatUnique (if left.contains r then left else left ++ [r]) rs := rfl

theorem concatUnique_step (left : List String) (r : String) :
    (if left.contains r then left else left ++ [r])
      = if r ∈ left then left else left ++ [r] := by
  by_cases hc : r ∈ left
  · rw [if_pos hc, if_pos (List.elem_iff.mpr hc)]
  · rw [if_neg hc, if_neg]
    intro helem
    exact hc (List.elem_iff.mp helem)

theorem concatUnique_mem_left (left right : List String) :
    ∀ k ∈ left, k ∈ concatUnique left right := by
  induction right generalizing left with
  | nil => intro k hk; exact hk
  | cons r rs ih =>
      intro k hk
      rw [concatUnique_cons, concatUnique_step]
      apply ih
      by_cases hc : r ∈ left
      · rw [if_pos hc]; exact hk
      · rw [if_neg hc]; exact List.mem_append_left _ hk

theorem concatUnique_mem_right (left right : List String) :
    ∀ k ∈ right, k ∈ concatUnique left right := by
  induction right generalizing left with
  | nil => intro k hk; cases hk
  | cons r rs ih =>
      intro k hk
      rw [concatUnique_cons, concatUnique_step]
      rcases List.mem_cons.mp hk with h | h
      · subst h
        apply concatUnique_mem_left
        by_cases hc : k ∈ left
        · rw [if_pos hc]; exact hc
        · rw [if_neg hc]; exact List.mem_append_right _ (List.mem_singleton_self k)
      · exact ih _ k h

theorem concatUnique_nodup (left right : List String) (h : left.Nodup) :
    (concatUnique left right).Nodup := by
  induction right generalizing left with
  | nil => exact h
  | cons r rs ih =>
      rw [concatUnique_cons, concatUnique_step]
      apply ih
      by_cases hc : r ∈ left
      · rw [if_pos hc]; exact h
      · rw [if_neg hc]
        simp [List.nodup_append, h, hc]

theorem filterRecommendations_mem (inspected : List String) (p kw : String)
    (h : kw ∈ filterRecommendations inspected (some p)) :
    jsStartsWith kw p = true := by
  unfold filterRecommendations at h
  exact (List.mem_filter.mp h).2


def trivialDeps : AutocompleteKeywordDeps :=
  { dispatch := fun _ _ _ => none,
    isTUnaryType := fun _ => false,
    trailingText := fun inspected _ _ => inspected }

def unaryTypeDeps : AutocompleteKeywordDeps :=
  { dispatch := fun _ _ _ => none,
    isTUnaryType := fun x => x.nodeKind == NodeKind.literalExpression,
    trailingText := fun inspected _ _ => inspected }

/-- C8: with no trailing token and an ancestry of exactly an Ast Identifier
leaf under an IdentifierExpression, autocompleteKeyword returns exactly the
start-of-document keywords whose spelling begins with the identifier's
literal; for the letter l that list is [let]. -/
theorem claim_C8_identifier_in_empty_document
    (deps : AutocompleteKeywordDeps) (activeNode : ActiveNode)
    (identifierNode : AstNode) (parentNode : XorNode)
    (hanc : activeNode.ancestry = [XorNode.ast identifierNode, parentNode])
    (hkind : identifierNode.kind = NodeKind.identifier)
    (hparent : parentNode.nodeKind = NodeKind.identifierExpression) :
    autocompleteKeyword deps activeNode none
      = Keyword.StartOfDocumentKeywords.filter
          (fun keywordKind => jsStartsWith keywordKind identifierNode.literal)
    ∧ Keyword.StartOfDocumentKeywords.filter
        (fun keywordKind => jsStartsWith keywordKind "l")
      = [Keyword.letKw] := by
  constructor
  · have hlen : ¬ activeNode.ancestry.length < 2 := by rw [hanc]; simp
    have hedge1 : edgeCase1Applies activeNode none = true := by
      unfold edgeCase1Applies
      rw [hanc]
      simp [hkind, hparent]
    have hedge : maybeEdgeCase activeNode none
        = some (Keyword.StartOfDocumentKeywords.filter
            (fun keywordKind => jsStartsWith keywordKind identifierNode.literal)) := by
      unfold maybeEdgeCase
      rw [if_pos hedge1, hanc]
      rfl
    unfold autocompleteKeyword
    rw [if_neg hlen, hedge]
  · decide

def c8Identifier : AstNode :=
  { id := 3, kind := NodeKind.identifier, literal := "l",
    positionStart := ⟨0, 0⟩, positionEnd := ⟨0, 1⟩ }

def c8Parent : AstNode := { id := 2, kind := NodeKind.identifierExpression }

def c8ActiveNode : ActiveNode :=
  { position := ⟨0, 1⟩,
    ancestry := [XorNode.ast c8Identifier, XorNode.ast c8Parent],
    leafKind := ActiveNodeLeafKind.afterAstNode,
    maybeIdentifierUnderPosition := some c8Identifier }

/-- Witness for C8: the caret after the lone identifier l yields [let]. -/
theorem claim_C8_identifier_in_empty_document_witness :
    autocompleteKeyword trivialDeps c8ActiveNode none = [Keyword.letKw] := by
  have h := claim_C8_identifier_in_empty_document trivialDeps c8ActiveNode
    c8Identifier (XorNode.ast c8Parent) rfl rfl rfl
  exact h.1.trans h.2

/-- C7 (amended): with an AfterAstNode leaf that is a finished unary-type
expression, no trailing token and no edge case, the returned list is the
ancestry-derived set extended by the conjunction keywords, first occurrence
winning, and then passed through the final maybePositionName prefix filter;
when that name is unset every conjunction keyword and every ancestry-derived
keyword is in the result, and the result stays duplicate-free. -/
theorem claim_C7_conjunction_keywords
    (deps : AutocompleteKeywordDeps) (activeNode : ActiveNode) (leafNode : AstNode)
    (hleaf : activeNode.ancestry.head? = some (XorNode.ast leafNode))
    (hlen : 2 ≤ activeNode.ancestry.length)
    (hkind : activeNode.leafKind = ActiveNodeLeafKind.afterAstNode)
    (hunary : deps.isTUnaryType (XorNode.ast leafNode) = true)
    (hedge : maybeEdgeCase activeNode none = none) :
    autocompleteKeyword deps activeNode none
      = filterRecommendations
          (concatUnique (traverseAncestors deps activeNode) ConjunctionKeywords)
          (computeMaybePositionName activeNode)
    ∧ (computeMaybePositionName activeNode = none →
        (∀ keywordKind ∈ ConjunctionKeywords,
          keywordKind ∈ autocompleteKeyword deps activeNode none)
        ∧ (∀ keywordKind ∈ traverseAncestors deps activeNode,
          keywordKind ∈ autocompleteKeyword deps activeNode none))
    ∧ ((traverseAncestors deps activeNode).Nodup →
        (autocompleteKeyword deps activeNode none).Nodup) := by
  have hhc : handleConjunctions deps activeNode (traverseAncestors deps activeNode) none
      = concatUnique (traverseAncestors deps activeNode) ConjunctionKeywords := by
    simp [handleConjunctions, hkind, hleaf, hunary]
  have hmain : autocompleteKeyword deps activeNode none
      = filterRecommendations
          (concatUnique (traverseAncestors deps activeNode) ConjunctionKeywords)
          (computeMaybePositionName activeNode) := by
    unfold autocompleteKeyword
    rw [if_neg (by omega), hedge, hhc]
  refine ⟨hmain, ?_, ?_⟩
  · intro hname
    constructor
    · intro keywordKind hkw
      rw [hmain, hname]
      exact concatUnique_mem_right _ _ keywordKind hkw
    · intro keywordKind hkw
      rw [hmain, hname]
      exact concatUnique_mem_left _ _ keywordKind hkw
  · intro hnodup
    rw [hmain]
    cases hname : computeMaybePositionName activeNode with
    | none => exact concatUnique_nodup _ _ hnodup
    | some positionName => exact List.Nodup.filter _ (concatUnique_nodup _ _ hnodup)

def c7LeafTrue : AstNode :=
  { id := 8, kind := NodeKind.literalExpression, literal := "true",
    literalKind := some "Logical",
    positionStart := ⟨0, 8⟩, positionEnd := ⟨0, 12⟩ }

def c7Parent : AstNode := { id := 7, kind := NodeKind.identifierPairedExpression }

def c7ActiveNode : ActiveNode :=
  { position := ⟨0, 12⟩,
    ancestry := [XorNode.ast c7LeafTrue, XorNode.ast c7Parent],
    leafKind := ActiveNodeLeafKind.afterAstNode,
    maybeIdentifierUnderPosition := none }

/-- C7 counterexample: the caret after the logical literal true satisfies
every condition of the claim (finished unary-type Ast leaf, AfterAstNode,
no trailing token), yet the returned list is empty: the final prefix filter
by the position name true removes every conjunction keyword, so the claim
that the result contains {and, as, is, meta, or} fails as stated. -/
theorem claim_C7_counterexample :
    unaryTypeDeps.isTUnaryType (XorNode.ast c7LeafTrue) = true
    ∧ c7ActiveNode.leafKind = ActiveNodeLeafKind.afterAstNode
    ∧ maybeEdgeCase c7ActiveNode none = none
    ∧ autocompleteKeyword unaryTypeDeps c7ActiveNode none = []
    ∧ Keyword.andKw ∉ autocompleteKeyword unaryTypeDeps c7ActiveNode none := by
  refine ⟨rfl, rfl, rfl, rfl, ?_⟩
  intro h
  cases h

def c7WitnessLeaf : AstNode :=
  { id := 8, kind := NodeKind.literalExpression, literal := "1",
    literalKind := some "Numeric",
    positionStart := ⟨0, 8⟩, positionEnd := ⟨0, 9⟩ }

def c7WitnessActiveNode : ActiveNode :=
  { position := ⟨0, 9⟩,
    ancestry := [XorNode.ast c7WitnessLeaf, XorNode.ast c7Parent],
    leafKind := ActiveNodeLeafKind.afterAstNode,
    maybeIdentifierUnderPosition := none }

/-- Witness for C7: after the numeric literal 1 (no position name), the
returned list is exactly the conjunction keywords. -/
theorem claim_C7_conjunction_keywords_witness :
    autocompleteKeyword unaryTypeDeps c7WitnessActiveNode none = ConjunctionKeywords := by
  have h := claim_C7_conjunction_keywords unaryTypeDeps c7WitnessActiveNode
    c7WitnessLeaf rfl (by decide) rfl rfl rfl
  exact h.1.trans (by decide)

theorem computeMaybePositionName_cases (activeNode : ActiveNode) (positionName : String)
    (hp : computeMaybePositionName activeNode = some positionName) :
    ∃ leaf, activeNode.ancestry.head? = some leaf
      ∧ isInXor activeNode.position leaf false true = true
      ∧ ((∃ ident, activeNode.maybeIdentifierUnderPosition = some ident
            ∧ positionName = ident.literal)
        ∨ (activeNode.maybeIdentifierUnderPosition = none
            ∧ ∃ node, leaf = XorNode.ast node
              ∧ node.kind = NodeKind.literalExpression
              ∧ (node.literalKind = some "Logical" ∨ node.literalKind = some "Null")
              ∧ positionName = node.literal)) := by
  unfold computeMaybePositionName at hp
  cases hhead : activeNode.ancestry.head? with
  | none => rw [hhead] at hp; cases hp
  | some leaf =>
      simp only [hhead] at hp
      by_cases hin : isInXor activeNode.position leaf false true = true
      · rw [if_pos hin] at hp
        refine ⟨leaf, rfl, hin, ?_⟩
        cases hmip : activeNode.maybeIdentifierUnderPosition with
        | some ident =>
            simp only [hmip] at hp
            exact Or.inl ⟨ident, rfl, (Option.some.inj hp).symm⟩
        | none =>
            simp only [hmip] at hp
            cases leaf with
            | context c =>
                exact Option.noConfusion
                  (show (none : Option String) = some positionName from hp)
            | ast node =>
                have hp2 : (if node.kind = NodeKind.literalExpression
                      ∧ (node.literalKind = some "Logical" ∨ node.literalKind = some "Null")
                    then some node.literal else none) = some positionName := hp
                by_cases hcond : node.kind = NodeKind.literalExpression
                    ∧ (node.literalKind = some "Logical" ∨ node.literalKind = some "Null")
                · rw [if_pos hcond] at hp2
                  exact Or.inr ⟨rfl, node, rfl, hcond.1, hcond.2, (Option.some.inj hp2).symm⟩
                · rw [if_neg hcond] at hp2
                  exact Option.noConfusion hp2
      · rw [if_neg hin] at hp; cases hp

theorem maybeEdgeCase_prefix (activeNode : ActiveNode)
    (maybeTrailingToken : Option TrailingToken) (positionName : String)
    (inspected : List String)
    (hwf : ∀ ident, activeNode.maybeIdentifierUnderPosition = some ident →
        activeNode.ancestry.head? = some (XorNode.ast ident)
        ∧ ident.kind = NodeKind.identifier
        ∧ positionLtB ident.positionStart activeNode.position = true
        ∧ positionLtB activeNode.position ident.positionEnd = true)
    (hp : computeMaybePositionName activeNode = some positionName)
    (hedge : maybeEdgeCase activeNode maybeTrailingToken = some inspected) :
    ∀ keywordKind ∈ inspected, jsStartsWith keywordKind positionName = true := by
  obtain ⟨leaf, hhead, hin, hcase⟩ := computeMaybePositionName_cases activeNode positionName hp
  have hget0 : activeNode.ancestry.get? 0 = some leaf := by
    rw [List.get?_zero, hhead]
  unfold maybeEdgeCase at hedge
  by_cases he1 : edgeCase1Applies activeNode maybeTrailingToken = true
  · rw [if_pos he1] at hedge
    unfold edgeCase1Applies at he1
    simp only [hget0, Bool.and_eq_true] at he1
    cases leaf with
    | context c => simp at he1
    | ast a =>
        simp only [hedge, beq_iff_eq] at he1
        have hakind : a.kind = NodeKind.identifier := he1.1.2
        simp only [hget0] at hedge
        have hinspected : inspected
            = Keyword.StartOfDocumentKeywords.filter
                (fun keywordKind => jsStartsWith keywordKind a.literal) :=
          (Option.some.inj hedge).symm
        have hpn : positionName = a.literal := by
          rcases hcase with ⟨ident, hmip, hpn⟩ | ⟨hmip, node, hnode, hlk, _, _⟩
          · obtain ⟨hhead2, _, _, _⟩ := hwf ident hmip
            rw [hhead] at hhead2
            have : XorNode.ast a = XorNode.ast ident := Option.some.inj hhead2
            cases this
            exact hpn
          · cases hnode
            rw [hakind] at hlk
            exact absurd hlk (by decide)
        intro keywordKind hkw
        rw [hinspected] at hkw
        rw [hpn]
        exact (List.mem_filter.mp hkw).2
  · rw [if_neg he1] at hedge
    by_cases he2 : edgeCase2Applies activeNode = true
    · exfalso
      unfold edgeCase2Applies at he2
      simp only [hget0] at he2
      cases leaf with
      | context c => simp at he2
      | ast a =>
          simp only [Bool.and_eq_true, beq_iff_eq] at he2
          have hakind : a.kind = NodeKind.identifier := he2.1.1
          have hafter : isAfterAst activeNode.position a true = true := he2.2
          rcases hcase with ⟨ident, hmip, hpn⟩ | ⟨hmip, node, hnode, hlk, _, _⟩
          · obtain ⟨hhead2, _, _, hlt2⟩ := hwf ident hmip
            rw [hhead] at hhead2
            have : XorNode.ast a = XorNode.ast ident := Option.some.inj hhead2
            cases this
            have hle : positionLeB a.positionEnd activeNode.position = false :=
              positionLt_not_le _ _ hlt2
            unfold isAfterAst at hafter
            rw [if_pos rfl] at hafter
            rw [hafter] at hle
            cases hle
          · cases hnode
            rw [hakind] at hlk
            exact absurd hlk (by decide)
    · rw [if_neg he2] at hedge
      by_cases he3 : edgeCase3Applies activeNode maybeTrailingToken = true
      · exfalso
        unfold edgeCase3Applies at he3
        simp only [hget0, Bool.and_eq_true] at he3
        cases leaf with
        | ast a => simp at he3
        | context c =>
            unfold isInXor at hin
            cases hin
      · rw [if_neg he3] at hedge
        cases hedge

/-- C9: prefix filtering: whenever maybePositionName is computed (the caret
sits in an identifier, per the resolver modelled from the spec, or on a
logical/null literal), every keyword returned by autocompleteKeyword starts
with that text; and whenever a trailing token is present, every
primitive-type name returned by autocompletePrimitiveType starts with the
trailing token's text. -/
theorem claim_C9_prefix_filtering
    (deps : AutocompleteKeywordDeps) (activeNode : ActiveNode)
    (maybeTrailingToken : Option TrailingToken)
    (primActiveNode : ActiveNode) (trailingToken : TrailingToken)
    (hwf : ∀ ident, activeNode.maybeIdentifierUnderPosition = some ident →
        activeNode.ancestry.head? = some (XorNode.ast ident)
        ∧ ident.kind = NodeKind.identifier
        ∧ positionLtB ident.positionStart activeNode.position = true
        ∧ positionLtB activeNode.position ident.positionEnd = true) :
    (∀ positionName, computeMaybePositionName activeNode = some positionName →
      ∀ keywordKind ∈ autocompleteKeyword deps activeNode maybeTrailingToken,
        jsStartsWith keywordKind positionName = true)
    ∧ (∀ primitiveTypeKind ∈ autocompletePrimitiveType primActiveNode (some trailingToken),
        jsStartsWith primitiveTypeKind trailingToken.data = true) := by
  constructor
  · intro positionName hp keywordKind hkw
    simp only [autocompleteKeyword] at hkw
    by_cases hl : activeNode.ancestry.length < 2
    · rw [if_pos hl, hp] at hkw
      exact filterRecommendations_mem _ _ _ hkw
    · rw [if_neg hl] at hkw
      cases hedge : maybeEdgeCase activeNode maybeTrailingToken with
      | none =>
          simp only [hedge, hp] at hkw
          exact filterRecommendations_mem _ _ _ hkw
      | some inspected =>
          simp only [hedge] at hkw
          exact maybeEdgeCase_prefix activeNode maybeTrailingToken positionName
            inspected hwf hp hedge keywordKind hkw
  · intro primitiveTypeKind hs
    unfold autocompletePrimitiveType AutocompletePrimitiveType.filterRecommendations at hs
    exact (List.mem_filter.mp hs).2

def c9Identifier : AstNode :=
  { id := 5, kind := NodeKind.identifier, literal := "le",
    positionStart := ⟨0, 0⟩, positionEnd := ⟨0, 2⟩ }

def c9ActiveNode : ActiveNode :=
  { position := ⟨0, 1⟩,
    ancestry := [XorNode.ast c9Identifier,
                 XorNode.ast { id := 4, kind := NodeKind.identifierExpression }],
    leafKind := ActiveNodeLeafKind.onAstNode,
    maybeIdentifierUnderPosition := some c9Identifier }

def c9PrimActiveNode : ActiveNode :=
  { position := ⟨0, 5⟩,
    ancestry := [XorNode.ast { id := 6, kind := NodeKind.typePrimaryType }],
    leafKind := ActiveNodeLeafKind.contextNode,
    maybeIdentifierUnderPosition := none }

def c9Trailing : TrailingToken :=
  { data := "da", positionStart := ⟨0, 5⟩, isInOrOnPosition := true }

/-- Witness for C9: the caret inside the identifier le filters keywords by
le, and the trailing text da filters the primitive types to the date
family. -/
theorem claim_C9_prefix_filtering_witness :
    (autocompleteKeyword trivialDeps c9ActiveNode none).all
        (fun keywordKind => jsStartsWith keywordKind "le") = true
    ∧ (autocompletePrimitiveType c9PrimActiveNode (some c9Trailing)).all
        (fun primitiveTypeKind => jsStartsWith primitiveTypeKind "da") = true
    ∧ autocompletePrimitiveType c9PrimActiveNode (some c9Trailing)
      = ["date", "datetime", "datetimezone"] := by
  have h := claim_C9_prefix_filtering trivialDeps c9ActiveNode none
    c9PrimActiveNode c9Trailing
    (by
      intro ident hm
      have hm2 : some c9Identifier = some ident := hm
      cases hm2
      exact ⟨rfl, rfl, by decide, by decide⟩)
  refine ⟨?_, ?_, by decide⟩
  · exact List.all_eq_true.mpr (fun kw hkw => h.1 "le" rfl kw hkw)
  · exact List.all_eq_true.mpr (fun s hs => h.2 s hs)



/-- The loop of `columnNumberFrom` (src/unnamed/part_000 lines 328-337):
before each grapheme, return the running column when the summed code units
reach the requirement; falling off the end is the error case. -/
def columnLoop (graphemes : List String)
    (requiredCodeUnit columnNumber summedCodeUnits : Nat) : Option Nat :=
  match graphemes with
  | [] => none
  | grapheme :: rest =>
      if summedCodeUnits = requiredCodeUnit then some columnNumber
      else columnLoop rest requiredCodeUnit (columnNumber + 1)
        (summedCodeUnits + grapheme.length)

/-- `columnNumberFrom` (src/unnamed/part_000 lines 325-344); the grapheme
splitter is the external collaborator, passed as a function, and the thrown
InvariantError is the error value. -/
def columnNumberFrom (splitGraphemes : String → List String) (text : String)
    (requiredCodeUnit : Nat) : Except String Nat :=
  match columnLoop (splitGraphemes text) requiredCodeUnit 0 0 with
  | some columnNumber => Except.ok columnNumber
  | none => Except.error "no columnNumber can be generated for required codeUnit"

/-- Summed code-unit length of a grapheme sequence (lengths measured on the
model's character lists). -/
def sumCodeUnits (graphemes : List String) : Nat :=
  (graphemes.map String.length).sum

theorem columnLoop_finds (graphemes : List String) :
    ∀ required col summed,
    (∀ g ∈ graphemes, 0 < g.length) →
    ∀ i, i < graphemes.length → summed + sumCodeUnits (graphemes.take i) = required →
      columnLoop graphemes required col summed = some (col + i) := by
  induction graphemes with
  | nil =>
      intro required col summed _ i hi
      exact absurd hi (Nat.not_lt_zero i)
  | cons g rest ih =>
      intro required col summed hpos i hi hsum
      cases i with
      | zero =>
          simp only [List.take_zero, sumCodeUnits, List.map_nil, List.sum_nil,
            Nat.add_zero] at hsum
          unfold columnLoop
          rw [if_pos hsum]
          rw [Nat.add_zero]
      | succ j =>
          have hg : 0 < g.length := hpos g (List.mem_cons_self g rest)
          simp only [List.take_succ_cons, sumCodeUnits, List.map_cons,
            List.sum_cons] at hsum
          have hneq : summed ≠ required := by omega
          unfold columnLoop
          rw [if_neg hneq]
          have hrec := ih required (col + 1) (summed + g.length)
            (fun x hx => hpos x (List.mem_cons_of_mem g hx)) j
            (by simpa using hi)
            (by simp only [sumCodeUnits]; omega)
          rw [hrec]
          congr 1
          omega

theorem columnLoop_misses (graphemes : List String) :
    ∀ required col summed,
    (∀ i, i < graphemes.length → summed + sumCodeUnits (graphemes.take i) ≠ required) →
    columnLoop graphemes required col summed = none := by
  induction graphemes with
  | nil => intro required col summed _; rfl
  | cons g rest ih =>
      intro required col summed h
      have h0 := h 0 (by simp)
      simp only [List.take_zero, sumCodeUnits, List.map_nil, List.sum_nil,
        Nat.add_zero] at h0
      unfold columnLoop
      rw [if_neg h0]
      apply ih
      intro i hi
      have := h (i + 1) (by simpa using hi)
      simp only [List.take_succ_cons, sumCodeUnits, List.map_cons, List.sum_cons] at this
      simp only [sumCodeUnits]
      omega

/-- C10: columnNumberFrom returns the grapheme count of the strict prefix
whose summed code-unit length equals requiredCodeUnit, and raises an
InvariantError when no strict prefix matches - in particular when
requiredCodeUnit equals the full code-unit length of the text, because the
boundary after the last grapheme is never tested. -/
theorem claim_C10_columnNumberFrom
    (splitGraphemes : String → List String) (text : String) (required : Nat)
    (hpos : ∀ g ∈ splitGraphemes text, 0 < g.length) :
    (∀ i, i < (splitGraphemes text).length →
      sumCodeUnits ((splitGraphemes text).take i) = required →
      columnNumberFrom splitGraphemes text required = Except.ok i)
    ∧ ((∀ i, i < (splitGraphemes text).length →
        sumCodeUnits ((splitGraphemes text).take i) ≠ required) →
      columnNumberFrom splitGraphemes text required
        = Except.error "no columnNumber can be generated for required codeUnit")
    ∧ (required = sumCodeUnits (splitGraphemes text) →
      columnNumberFrom splitGraphemes text required
        = Except.error "no columnNumber can be generated for required codeUnit") := by
  have hmiss : (∀ i, i < (splitGraphemes text).length →
      sumCodeUnits ((splitGraphemes text).take i) ≠ required) →
      columnNumberFrom splitGraphemes text required
        = Except.error "no columnNumber can be generated for required codeUnit" := by
    intro h
    unfold columnNumberFrom
    rw [columnLoop_misses (splitGraphemes text) required 0 0
      (fun i hi => by simpa using h i hi)]
  refine ⟨?_, hmiss, ?_⟩
  · intro i hi hsum
    unfold columnNumberFrom
    rw [columnLoop_finds (splitGraphemes text) required 0 0 hpos i hi (by simpa using hsum)]
    rw [Nat.zero_add]
  · intro hreq
    apply hmiss
    intro i hi hsum
    have hsplit : (splitGraphemes text).take i ++ (splitGraphemes text).drop i
        = splitGraphemes text := List.take_append_drop i (splitGraphemes text)
    have hsumsplit : sumCodeUnits ((splitGraphemes text).take i)
        + sumCodeUnits ((splitGraphemes text).drop i)
        = sumCodeUnits (splitGraphemes text) := by
      rw [← hsplit]
      simp [sumCodeUnits]
    cases hdrop : (splitGraphemes text).drop i with
    | nil =>
        have : (splitGraphemes text).length ≤ i := by
          have := congrArg List.length hdrop
          simp only [List.length_drop, List.length_nil] at this
          omega
        omega
    | cons g tail =>
        have hmem : g ∈ splitGraphemes text := by
          have : g ∈ (splitGraphemes text).drop i := by rw [hdrop]; exact List.mem_cons_self g tail
          exact List.mem_of_mem_drop this
        have hg : 0 < g.length := hpos g hmem
        have : 0 < sumCodeUnits ((splitGraphemes text).drop i) := by
          rw [hdrop]
          simp only [sumCodeUnits, List.map_cons, List.sum_cons]
          omega
        omega

/-- A splitter treating every character as one grapheme. -/
def charSplitter (s : String) : List String :=
  s.data.map (fun c => String.mk [c])

/-- Witness for C10 on the text abc: code unit 2 is the boundary after two
graphemes; code unit 3 (the full length) raises the invariant error. -/
theorem claim_C10_columnNumberFrom_witness :
    columnNumberFrom charSplitter "abc" 2 = Except.ok 2
    ∧ columnNumberFrom charSplitter "abc" 3
      = Except.error "no columnNumber can be generated for required codeUnit" := by
  constructor
  · exact (claim_C10_columnNumberFrom charSplitter "abc" 2 (by decide)).1 2
      (by decide) (by decide)
  · exact (claim_C10_columnNumberFrom charSplitter "abc" 3 (by decide)).2.2 (by decide)


end PQ
